import Mathlib

set_option maxHeartbeats 1000000

namespace AgentTooling

/-- Scalar JSON values as they appear in the fields of one Socrata row record
(string, number, boolean, null). -/
inductive JScalar where
  | str (s : String)
  | num (n : Int)
  | bool (b : Bool)
  | null
deriving Repr, DecidableEq

/-- One row record: an ordered field map, as JSON.parse produces for a row
object of a page body. -/
abbrev JRecord := List (String × JScalar)

/-- Concatenate the images of a list under a string-valued function. -/
def catMap (f : α → String) : List α → String
  | [] => ""
  | a :: as => f a ++ catMap f as

/-- Separator-join of the images of a list: first image bare, every later one
preceded by the separator. -/
def sepBy (sep : String) (f : α → String) : List α → String
  | [] => ""
  | a :: as => f a ++ catMap (fun x => sep ++ f x) as

/-- Escape one character the way JSON.stringify escapes string characters
(common subset: quote, backslash, newline, carriage return, tab). -/
def escChar (c : Char) : String :=
  if c = '"' then "\\\""
  else if c = '\\' then "\\\\"
  else if c = '\n' then "\\n"
  else if c = '\r' then "\\r"
  else if c = '\t' then "\\t"
  else String.singleton c

/-- JSON string literal for `s`, as JSON.stringify renders it. -/
def jsonQuote (s : String) : String :=
  "\"" ++ String.join (s.data.map escChar) ++ "\""

/-- JSON.stringify of one scalar field value. -/
def serializeScalar : JScalar → String
  | .str s => jsonQuote s
  | .num n => toString n
  | .bool true => "true"
  | .bool false => "false"
  | .null => "null"

/-- JSON.stringify of one row object: ordered fields, no whitespace,
`"key":value` pairs separated by commas inside braces. -/
def serializeRecord (r : JRecord) : String :=
  "\x7b" ++ sepBy "," (fun f => jsonQuote f.1 ++ ":" ++ serializeScalar f.2) r ++ "\x7d"

/-- JavaScript `Array.prototype.join('\n')`. -/
def joinLines : List String → String
  | [] => ""
  | [l] => l
  | l :: ls => l ++ "\n" ++ joinLines ls

/-- JavaScript truthiness of a `number | undefined` value: `undefined` and `0`
are falsy, every other number is truthy. -/
def truthyOpt : Option Int → Bool
  | none => false
  | some v => v != 0

/-- JavaScript `a || b` on two `number | undefined` values. -/
def jsOr (a b : Option Int) : Option Int := if truthyOpt a then a else b

/-- The per-iteration chunk limit of download-dataset.ts line 330:
`Math.min(args.chunkSize, rowsToDownload ? rowsToDownload - downloadedRows :
args.chunkSize)`. -/
def chunkLimitOf (chunkSize : Int) (rowsToDownload : Option Int) (downloadedRows : Int) : Int :=
  min chunkSize
    (if truthyOpt rowsToDownload then rowsToDownload.getD 0 - downloadedRows else chunkSize)

/-- Instrumentation record of one page fetch: the `$limit` requested, the
`$offset` requested, and the number of rows the loop counted in the reply. -/
structure FetchEv where
  cap : Int
  offset : Int
  returned : Int
deriving Repr, DecidableEq

/-- One progress line of lines 381-386: with total and percentage when
`rowsToDownload` is truthy, rows-committed alone otherwise. -/
inductive ProgressEv where
  | withTotal (downloaded total : Int)
  | plain (downloaded : Int)
deriving Repr, DecidableEq

/-- Progress line emitted for the current counter, per `if (rowsToDownload)`. -/
def mkProgress (rtd : Option Int) (downloaded : Int) : ProgressEv :=
  if truthyOpt rtd then .withTotal downloaded (rtd.getD 0) else .plain downloaded

/-- Loop state of the JSON branch of `downloadDataset`: the three mutable
variables of lines 321-323 plus instrumentation (fetches issued, records
committed, bytes written, progress lines emitted). -/
structure JsonSt where
  offset : Int
  downloadedRows : Int
  isFirstChunk : Bool
  fetches : List FetchEv
  records : List JRecord
  out : String
  progress : List ProgressEv
deriving Repr, DecidableEq

/-- State at loop entry: counters zero, first-chunk flag set, and the opening
bracket line `[\n` already written (line 326). -/
def initJsonSt : JsonSt := ⟨0, 0, true, [], [], "[\n", []⟩

/-- The `rows.forEach` body of lines 347-353: before each record, write `,\n`
unless this is the very first record overall; then two spaces and the
serialized record; clear the first-chunk flag. -/
def writeRows (isFirstChunk : Bool) (out : String) (rows : List JRecord) : Bool × String :=
  rows.foldl
    (fun p r => (false, p.2 ++ (if p.1 then "" else ",\n") ++ "  " ++ serializeRecord r))
    (isFirstChunk, out)

/-- Result of one loop iteration: the loop either halts in state `s` (one of
the `break`s or the `chunkLimit <= 0` exit) or continues from state `s`. -/
inductive StepRes (σ : Type) where
  | halt (s : σ)
  | cont (s : σ)
deriving Repr, DecidableEq

/-- JSON branch of the loop body after the fetch returned `rows` (lines
343-357): break on an empty page before writing; otherwise commit the rows,
then break on a short page, else advance the offset and emit progress. -/
def jsonFetched (chunkLimit : Int) (rtd : Option Int) (s : JsonSt) (rows : List JRecord) :
    StepRes JsonSt :=
  let s1 : JsonSt := { s with fetches := s.fetches ++ [⟨chunkLimit, s.offset, (rows.length : Int)⟩] }
  if rows.length = 0 then .halt s1
  else
    let s2 : JsonSt := { s1 with
      isFirstChunk := (writeRows s1.isFirstChunk s1.out rows).1,
      out := (writeRows s1.isFirstChunk s1.out rows).2,
      records := s1.records ++ rows,
      downloadedRows := s1.downloadedRows + (rows.length : Int) }
    if (rows.length : Int) < chunkLimit then .halt s2
    else .cont { s2 with
      offset := s2.offset + chunkLimit,
      progress := s2.progress ++ [mkProgress rtd s2.downloadedRows] }

/-- One full iteration of the `while (true)` loop in JSON mode: compute the
chunk limit, exit if it is not positive, otherwise fetch and process. -/
def jsonStep (chunkSize : Int) (rtd : Option Int) (remote : Int → Int → List JRecord)
    (s : JsonSt) : StepRes JsonSt :=
  if chunkLimitOf chunkSize rtd s.downloadedRows ≤ 0 then .halt s
  else jsonFetched (chunkLimitOf chunkSize rtd s.downloadedRows) rtd s
    (remote (chunkLimitOf chunkSize rtd s.downloadedRows) s.offset)

/-- Fuel-bounded unfolding of the JSON download loop; `none` means the fuel
ran out before the loop exited. -/
def jsonLoop (chunkSize : Int) (rtd : Option Int) (remote : Int → Int → List JRecord) :
    Nat → JsonSt → Option JsonSt
  | 0, _ => none
  | fuel + 1, s =>
    match jsonStep chunkSize rtd remote s with
    | .halt s' => some s'
    | .cont s' => jsonLoop chunkSize rtd remote fuel s'

/-- The whole JSON-mode download after the preamble: run the loop from the
initial state, then write the closing `\n]\n` (lines 389-391). -/
def runJson (chunkSize : Int) (rtd : Option Int) (remote : Int → Int → List JRecord)
    (fuel : Nat) : Option JsonSt :=
  (jsonLoop chunkSize rtd remote fuel initJsonSt).map (fun s => { s with out := s.out ++ "\n]\n" })

/-- Loop state of the CSV branch: as `JsonSt` but the page is kept only as the
bytes written. -/
structure CsvSt where
  offset : Int
  downloadedRows : Int
  isFirstChunk : Bool
  fetches : List FetchEv
  out : String
  progress : List ProgressEv
deriving Repr, DecidableEq

/-- State at loop entry in CSV mode: nothing written yet. -/
def initCsvSt : CsvSt := ⟨0, 0, true, [], "", []⟩

/-- CSV branch of the loop body after the fetch (lines 358-376), with the page
body represented by its `chunk.split('\n')` line list: break when at most one
line; write the whole chunk on the first page, the lines after the header
(joined back with newlines) on later pages; count `lines.length - 1` rows;
break on a short count, else advance and emit progress. -/
def csvFetched (chunkLimit : Int) (rtd : Option Int) (s : CsvSt) (lines : List String) :
    StepRes CsvSt :=
  let s1 : CsvSt := { s with
    fetches := s.fetches ++ [⟨chunkLimit, s.offset, (lines.length : Int) - 1⟩] }
  if lines.length ≤ 1 then .halt s1
  else
    let s2 : CsvSt := { s1 with
      out := s1.out ++ (if s1.isFirstChunk then joinLines lines else joinLines (lines.drop 1)),
      isFirstChunk := false,
      downloadedRows := s1.downloadedRows + ((lines.length : Int) - 1) }
    if (lines.length : Int) - 1 < chunkLimit then .halt s2
    else .cont { s2 with
      offset := s2.offset + chunkLimit,
      progress := s2.progress ++ [mkProgress rtd s2.downloadedRows] }

/-- One full iteration of the `while (true)` loop in CSV mode. -/
def csvStep (chunkSize : Int) (rtd : Option Int) (remote : Int → Int → List String)
    (s : CsvSt) : StepRes CsvSt :=
  if chunkLimitOf chunkSize rtd s.downloadedRows ≤ 0 then .halt s
  else csvFetched (chunkLimitOf chunkSize rtd s.downloadedRows) rtd s
    (remote (chunkLimitOf chunkSize rtd s.downloadedRows) s.offset)

/-- Fuel-bounded unfolding of the CSV download loop. -/
def csvLoop (chunkSize : Int) (rtd : Option Int) (remote : Int → Int → List String) :
    Nat → CsvSt → Option CsvSt
  | 0, _ => none
  | fuel + 1, s =>
    match csvStep chunkSize rtd remote s with
    | .halt s' => some s'
    | .cont s' => csvLoop chunkSize rtd remote fuel s'

/-- The whole CSV-mode download after the preamble: just the loop (no framing
is written around text output). -/
def runCsv (chunkSize : Int) (rtd : Option Int) (remote : Int → Int → List String)
    (fuel : Nat) : Option CsvSt :=
  csvLoop chunkSize rtd remote fuel initCsvSt

/-- Remote source stipulated by the testable properties: a JSON page request
with cap `cap` at offset `offset` returns exactly `min(cap, remaining)` of the
dataset's rows, in order. -/
def stdJsonRemote (rows : List JRecord) (cap offset : Int) : List JRecord :=
  (rows.drop offset.toNat).take cap.toNat

/-- Remote source for CSV pages, given as the `split('\n')` line list of the
page body: the header line, then `min(cap, remaining)` data lines, then the
empty segment produced by the body's terminating newline (SODA CSV bodies end
every record line, including the last, with a newline). -/
def stdCsvRemote (header : String) (rows : List String) (cap offset : Int) : List String :=
  header :: ((rows.drop offset.toNat).take cap.toNat ++ [""])

/-- Lowercase one character, as `String.prototype.toLowerCase` acts on the
ASCII range. -/
def asciiLower (c : Char) : Char :=
  if 'A' ≤ c ∧ c ≤ 'Z' then Char.ofNat (c.toNat + 32) else c

/-- Model of `answer.toLowerCase()` (ASCII range). -/
def lowerStr (s : String) : String := ⟨s.data.map asciiLower⟩

/-- The answer check of `confirmDownload` (lines 242-254): affirmative exactly
when the lowercased answer is `y` or `yes`. -/
def confirmDownload (answer : String) : Bool :=
  lowerStr answer == "y" || lowerStr answer == "yes"

/-- Outcome of the pre-download gate of lines 274-306 and the
`rowsToDownload` selection of line 315. -/
structure GateOut where
  countInvoked : Bool
  promptInvoked : Bool
  cancelled : Bool
  rowsToDownload : Option Int
deriving Repr, DecidableEq

/-- The gate: when confirmation is not suppressed and no truthy limit is set,
count the rows and prompt; a non-affirmative answer cancels. In every
non-cancelled case `rowsToDownload = args.limit || totalRows` where
`totalRows` is defined only if the count ran. -/
def gate (noConfirm : Bool) (limit : Option Int) (countedRows : Int) (answer : String) :
    GateOut :=
  if !noConfirm && !truthyOpt limit then
    if confirmDownload answer then ⟨true, true, false, jsOr limit (some countedRows)⟩
    else ⟨true, true, true, jsOr limit (some countedRows)⟩
  else ⟨false, false, false, jsOr limit none⟩

/-- Outcome of one invocation of `downloadDataset` as observed by `main`:
a thrown error caught by `main` (exit 1), a graceful cancellation (exit 0,
message printed), fuel exhaustion of the model, or a completed download. -/
inductive Outcome (σ : Type) where
  | fatal (msg : String)
  | cancelled (msg : String)
  | outOfFuel
  | done (s : σ)
deriving Repr, DecidableEq

/-- JSON-mode `downloadDataset` (lines 257-396): metadata fetch first (a
failure propagates before anything else happens), then the confirmation gate,
then the destination file is opened and the paginated loop runs. -/
def downloadDatasetJson (metadata : Except String Unit) (noConfirm : Bool)
    (limit : Option Int) (countedRows : Int) (answer : String) (chunkSize : Int)
    (remote : Int → Int → List JRecord) (fuel : Nat) : Outcome JsonSt :=
  match metadata with
  | .error e => .fatal e
  | .ok _ =>
    let g := gate noConfirm limit countedRows answer
    if g.cancelled then .cancelled "Download cancelled."
    else
      match runJson chunkSize g.rowsToDownload remote fuel with
      | none => .outOfFuel
      | some s => .done s

/-- CSV-mode `downloadDataset`, sharing the same preamble and gate. -/
def downloadDatasetCsv (metadata : Except String Unit) (noConfirm : Bool)
    (limit : Option Int) (countedRows : Int) (answer : String) (chunkSize : Int)
    (remote : Int → Int → List String) (fuel : Nat) : Outcome CsvSt :=
  match metadata with
  | .error e => .fatal e
  | .ok _ =>
    let g := gate noConfirm limit countedRows answer
    if g.cancelled then .cancelled "Download cancelled."
    else
      match runCsv chunkSize g.rowsToDownload remote fuel with
      | none => .outOfFuel
      | some s => .done s

/-- Whether the destination file was ever opened (created or truncated):
`fs.createWriteStream` runs only once the loop phase is reached. -/
def fileOpened : Outcome σ → Bool
  | .done _ => true
  | .outOfFuel => true
  | .fatal _ => false
  | .cancelled _ => false

/-- Exit code of the process as set by `main` (line 405) and the cancellation
path (line 304): 1 for a caught error, 0 otherwise. -/
def mainExitCode : Outcome σ → Int
  | .fatal _ => 1
  | _ => 0

/-- Project a completed outcome through `f`; `none` for every other outcome. -/
def onDone (f : σ → α) : Outcome σ → Option α
  | .done s => some (f s)
  | _ => none

/-- Value of a run of decimal digits, most significant first. -/
def digitsVal : List Char → Nat → Nat
  | [], acc => acc
  | c :: cs, acc => digitsVal cs (acc * 10 + (c.toNat - '0'.toNat))

/-- Parse the leading decimal-digit run; `none` when there is none (the NaN
case of JavaScript parseInt). -/
def parseDigits (cs : List Char) : Option Nat :=
  let ds := cs.takeWhile Char.isDigit
  if ds.isEmpty then none else some (digitsVal ds 0)

/-- Model of JavaScript `parseInt(s, 10)`: skip leading whitespace, accept an
optional sign, read the longest decimal-digit prefix; `none` models NaN. -/
def parseIntJS (s : String) : Option Int :=
  match s.data.dropWhile Char.isWhitespace with
  | '-' :: rest => (parseDigits rest).map (fun n => -(n : Int))
  | '+' :: rest => (parseDigits rest).map (fun n => (n : Int))
  | cs => (parseDigits cs).map (fun n => (n : Int))

/-- The count extraction of `countRows` (line 231):
`parseInt(result[0]?.count || '0', 10)` with the count field modeled as an
optional string (`none` when the array is empty or the field is absent; the
only falsy string is the empty one). -/
def countRowsParse (countField : Option String) : Option Int :=
  parseIntJS (match countField with
    | none => "0"
    | some s => if s = "" then "0" else s)

/-- The exact fetch sequence the loop issues against `stdJsonRemote` when a
truthy total `T` bounds it and `d` rows are already committed: caps
`min P (T - d)` at offsets advancing by the cap. -/
def knownFetches (P T d : Nat) : List FetchEv :=
  if h : T ≤ d ∨ P = 0 then []
  else
    ⟨((min P (T - d) : Nat) : Int), ((d : Nat) : Int), ((min P (T - d) : Nat) : Int)⟩ ::
      knownFetches P T (d + min P (T - d))
termination_by T - d
decreasing_by omega

/-- A page fetch whose reply row count reached the requested cap; the loop
emits a progress line exactly after such pages. -/
def isFullPage (f : FetchEv) : Bool := f.cap ≤ f.returned

/-- The claim-side characterization of valid JSON-array framing: opening
bracket line, the serialized records each indented two spaces and separated by
comma-newline with no stray leading or trailing comma, closing bracket line. -/
def specJsonArrayText (items : List String) : String :=
  "[\n" ++ sepBy ",\n" (fun r => "  " ++ r) items ++ "\n]\n"

/-- Appending a list concatenates the image strings. -/
theorem catMap_append (f : α → String) (l1 l2 : List α) :
    catMap f (l1 ++ l2) = catMap f l1 ++ catMap f l2 := by
  induction l1 with
  | nil => simp [catMap]
  | cons a as ih => simp [catMap, ih, String.append_assoc]

/-- Separator-join over a mapped list composes the functions. -/
theorem sepBy_map (sep : String) (f : β → String) (g : α → β) (l : List α) :
    sepBy sep f (l.map g) = sepBy sep (fun a => f (g a)) l := by
  cases l with
  | nil => rfl
  | cons a as =>
    simp only [List.map_cons, sepBy]
    congr 1
    induction as with
    | nil => rfl
    | cons b bs ih => simp [catMap, ih]

/-- Splitting off a nonempty prefix of a separator-join. -/
theorem sepBy_append_of_ne_nil (sep : String) (f : α → String) (l1 l2 : List α)
    (h : l1 ≠ []) :
    sepBy sep f (l1 ++ l2) = sepBy sep f l1 ++ catMap (fun x => sep ++ f x) l2 := by
  cases l1 with
  | nil => exact absurd rfl h
  | cons a as => simp [sepBy, catMap_append, String.append_assoc]

/-- The write loop with the first-record flag already cleared prepends a
comma-newline to every record. -/
theorem writeRows_false (out : String) (rows : List JRecord) :
    writeRows false out rows
      = (false, out ++ catMap (fun r => ",\n" ++ ("  " ++ serializeRecord r)) rows) := by
  induction rows generalizing out with
  | nil => simp [writeRows, catMap]
  | cons r rs ih =>
    simp only [writeRows, List.foldl_cons] at ih ⊢
    rw [ih]
    simp only [catMap, String.append_assoc]
    norm_num

/-- The write loop with the first-record flag set writes the records
comma-separated with no leading comma, and clears the flag exactly when some
record was written. -/
theorem writeRows_true (out : String) (rows : List JRecord) :
    writeRows true out rows
      = (rows.isEmpty, out ++ sepBy ",\n" (fun r => "  " ++ serializeRecord r) rows) := by
  cases rows with
  | nil => simp [writeRows, sepBy]
  | cons r rs =>
    have h1 : writeRows true out (r :: rs)
        = writeRows false (out ++ "" ++ "  " ++ serializeRecord r) rs := rfl
    rw [h1, writeRows_false]
    simp only [sepBy, List.isEmpty_cons, String.append_assoc, String.append_empty,
      String.empty_append]

/-- Iteration exit of line 335: a non-positive chunk limit halts the loop with
the state unchanged and no fetch issued. -/
theorem jsonStep_halt_limit (cs : Int) (rtd : Option Int) (remote : Int → Int → List JRecord)
    (s : JsonSt) (h : chunkLimitOf cs rtd s.downloadedRows ≤ 0) :
    jsonStep cs rtd remote s = .halt s := by
  simp [jsonStep, h]

/-- With a positive chunk limit the iteration fetches one page and processes
it. -/
theorem jsonStep_eq_fetched (cs : Int) (rtd : Option Int) (remote : Int → Int → List JRecord)
    (s : JsonSt) (h : ¬ chunkLimitOf cs rtd s.downloadedRows ≤ 0) :
    jsonStep cs rtd remote s
      = jsonFetched (chunkLimitOf cs rtd s.downloadedRows) rtd s
          (remote (chunkLimitOf cs rtd s.downloadedRows) s.offset) := by
  simp [jsonStep, h]

/-- Break of line 345 on an empty page: the fetch is recorded and the loop
halts without writing. -/
theorem jsonFetched_empty (cl : Int) (rtd : Option Int) (s : JsonSt) :
    jsonFetched cl rtd s []
      = .halt { s with fetches := s.fetches ++ [⟨cl, s.offset, 0⟩] } := by
  simp [jsonFetched]

/-- Break of line 357 on a short page: the page's rows are committed and the
loop halts, with no offset advance and no progress line. -/
theorem jsonFetched_short (cl : Int) (rtd : Option Int) (s : JsonSt) (rows : List JRecord)
    (hne : rows ≠ []) (hshort : (rows.length : Int) < cl) :
    jsonFetched cl rtd s rows
      = .halt ⟨s.offset, s.downloadedRows + (rows.length : Int),
          (writeRows s.isFirstChunk s.out rows).1,
          s.fetches ++ [⟨cl, s.offset, (rows.length : Int)⟩],
          s.records ++ rows,
          (writeRows s.isFirstChunk s.out rows).2,
          s.progress⟩ := by
  have hlen : rows.length ≠ 0 := by simpa using hne
  simp [jsonFetched, hlen, hshort]

/-- A page that fills its cap: the rows are committed, the offset advances by
the chunk limit, one progress line is emitted, and the loop continues. -/
theorem jsonFetched_full (cl : Int) (rtd : Option Int) (s : JsonSt) (rows : List JRecord)
    (hne : rows ≠ []) (hfull : ¬ (rows.length : Int) < cl) :
    jsonFetched cl rtd s rows
      = .cont ⟨s.offset + cl, s.downloadedRows + (rows.length : Int),
          (writeRows s.isFirstChunk s.out rows).1,
          s.fetches ++ [⟨cl, s.offset, (rows.length : Int)⟩],
          s.records ++ rows,
          (writeRows s.isFirstChunk s.out rows).2,
          s.progress ++ [mkProgress rtd (s.downloadedRows + (rows.length : Int))]⟩ := by
  have hlen : rows.length ≠ 0 := by simpa using hne
  simp [jsonFetched, hlen, hfull]

/-- Unfolding of the fueled loop. -/
theorem jsonLoop_succ (cs : Int) (rtd : Option Int) (remote : Int → Int → List JRecord)
    (fuel : Nat) (s : JsonSt) :
    jsonLoop cs rtd remote (fuel + 1) s
      = match jsonStep cs rtd remote s with
        | .halt s' => some s'
        | .cont s' => jsonLoop cs rtd remote fuel s' := rfl

/-- A falsy `rowsToDownload` (absent, or the falsy total 0) leaves the chunk
limit at the configured chunk size. -/
theorem chunkLimit_falsy (cs : Int) (rtd : Option Int) (h : truthyOpt rtd = false)
    (dl : Int) : chunkLimitOf cs rtd dl = cs := by
  simp [chunkLimitOf, h]

/-- With a truthy total `T` and `d` rows committed, the chunk limit is
`min P (T - d)`. -/
theorem chunkLimit_truthy (P T d : Nat) (hT : 0 < T) (hd : d ≤ T) :
    chunkLimitOf (P : Int) (some (T : Int)) (d : Int) = ((min P (T - d) : Nat) : Int) := by
  have ht : truthyOpt (some (T : Int)) = true := by
    simp [truthyOpt]
    omega
  simp only [chunkLimitOf, ht, if_pos, Option.getD_some]
  rw [Nat.cast_min]
  congr 1
  omega

/-- The stipulated JSON remote evaluated at natural cap and offset. -/
theorem stdJsonRemote_eq (rows : List JRecord) (c d : Nat) :
    stdJsonRemote rows (c : Int) (d : Int) = (rows.drop d).take c := by
  simp [stdJsonRemote]

/-- Committing a page preserves the JSON-array framing invariant: the bytes
written so far are the opening bracket line plus the comma-separated committed
records, and the first-chunk flag tracks emptiness of the committed list. -/
theorem writeRows_framing (records rows : List JRecord) (out : String)
    (hout : out = "[\n" ++ sepBy ",\n" (fun r => "  " ++ serializeRecord r) records) :
    (writeRows records.isEmpty out rows).2
        = "[\n" ++ sepBy ",\n" (fun r => "  " ++ serializeRecord r) (records ++ rows)
      ∧ (writeRows records.isEmpty out rows).1 = (records ++ rows).isEmpty := by
  cases records with
  | nil =>
    simp only [List.isEmpty_nil, writeRows_true, hout, sepBy, List.nil_append]
    constructor
    · rw [String.append_assoc]
      simp [String.append_empty]
    · trivial
  | cons a as =>
    simp only [List.isEmpty_cons, writeRows_false, hout]
    constructor
    · rw [sepBy_append_of_ne_nil _ _ (a :: as) rows (by simp)]
      rw [String.append_assoc]
    · simp

/-- One loop iteration preserves the framing invariant, whether it halts or
continues. -/
theorem jsonStep_framing (cs : Int) (rtd : Option Int) (remote : Int → Int → List JRecord)
    (s s1 : JsonSt)
    (h : jsonStep cs rtd remote s = .halt s1 ∨ jsonStep cs rtd remote s = .cont s1)
    (hout : s.out = "[\n" ++ sepBy ",\n" (fun r => "  " ++ serializeRecord r) s.records)
    (hflag : s.isFirstChunk = s.records.isEmpty) :
    s1.out = "[\n" ++ sepBy ",\n" (fun r => "  " ++ serializeRecord r) s1.records
      ∧ s1.isFirstChunk = s1.records.isEmpty := by
  have hw := writeRows_framing s.records
    (remote (chunkLimitOf cs rtd s.downloadedRows) s.offset) s.out hout
  rw [← hflag] at hw
  by_cases hcl : chunkLimitOf cs rtd s.downloadedRows ≤ 0
  · rw [jsonStep_halt_limit cs rtd remote s hcl] at h
    rcases h with h | h
    · cases h
      exact ⟨hout, hflag⟩
    · cases h
  · rw [jsonStep_eq_fetched cs rtd remote s hcl] at h
    by_cases hr : remote (chunkLimitOf cs rtd s.downloadedRows) s.offset = []
    · rw [hr, jsonFetched_empty] at h
      rcases h with h | h
      · cases h
        exact ⟨hout, hflag⟩
      · cases h
    · by_cases hshort : ((remote (chunkLimitOf cs rtd s.downloadedRows) s.offset).length : Int)
          < chunkLimitOf cs rtd s.downloadedRows
      · rw [jsonFetched_short _ _ _ _ hr hshort] at h
        rcases h with h | h
        · cases h
          exact ⟨hw.1, hw.2⟩
        · cases h
      · rw [jsonFetched_full _ _ _ _ hr hshort] at h
        rcases h with h | h
        · cases h
        · cases h
          exact ⟨hw.1, hw.2⟩

/-- The loop preserves the framing invariant to its final state. -/
theorem jsonLoop_framing (cs : Int) (rtd : Option Int) (remote : Int → Int → List JRecord) :
    ∀ (fuel : Nat) (s s' : JsonSt), jsonLoop cs rtd remote fuel s = some s' →
      s.out = "[\n" ++ sepBy ",\n" (fun r => "  " ++ serializeRecord r) s.records →
      s.isFirstChunk = s.records.isEmpty →
      s'.out = "[\n" ++ sepBy ",\n" (fun r => "  " ++ serializeRecord r) s'.records
        ∧ s'.isFirstChunk = s'.records.isEmpty := by
  intro fuel
  induction fuel with
  | zero => intro s s' h; cases h
  | succ n ih =>
    intro s s' h hout hflag
    rw [jsonLoop_succ] at h
    cases hstep : jsonStep cs rtd remote s with
    | halt s1 =>
      rw [hstep] at h
      cases h
      exact jsonStep_framing cs rtd remote s s' (Or.inl hstep) hout hflag
    | cont s1 =>
      rw [hstep] at h
      have h1 := jsonStep_framing cs rtd remote s s1 (Or.inr hstep) hout hflag
      exact ih s1 s' h h1.1 h1.2

/-- Master run lemma for a falsy `rowsToDownload` (no limit known to the
loop): starting `d` rows into the dataset, the loop commits every remaining
row, issues `(remaining / P) + 1` fetches (the final fetch being the short or
empty probe that breaks the loop), and emits a progress line only after the
`remaining / P` full pages. -/
theorem jsonLoop_unknown (rows : List JRecord) (P : Nat) (hP : 0 < P) (rtd : Option Int)
    (hrtd : truthyOpt rtd = false) :
    ∀ (fuel : Nat) (d : Nat) (s : JsonSt), d ≤ rows.length →
      rows.length - d + 2 ≤ fuel → s.offset = (d : Int) →
      ∃ s', jsonLoop (P : Int) rtd (stdJsonRemote rows) fuel s = some s'
        ∧ s'.downloadedRows = s.downloadedRows + ((rows.length - d : Nat) : Int)
        ∧ s'.records = s.records ++ rows.drop d
        ∧ s'.fetches.length = s.fetches.length + ((rows.length - d) / P + 1)
        ∧ s'.progress.length = s.progress.length + (rows.length - d) / P := by
  intro fuel
  induction fuel with
  | zero => intro d s _ hfuel _; omega
  | succ n ih =>
    intro d s hd hfuel hoff
    have hcl : chunkLimitOf (P : Int) rtd s.downloadedRows = (P : Int) :=
      chunkLimit_falsy _ _ hrtd _
    have hclpos : ¬ chunkLimitOf (P : Int) rtd s.downloadedRows ≤ 0 := by
      rw [hcl]; omega
    rw [jsonLoop_succ, jsonStep_eq_fetched _ _ _ _ hclpos, hcl, hoff, stdJsonRemote_eq]
    by_cases h0 : rows.length ≤ d
    · have hpage : (rows.drop d).take P = [] := by
        rw [List.drop_eq_nil_of_le h0]
        simp
      rw [hpage, jsonFetched_empty]
      refine ⟨_, rfl, ?_, ?_, ?_, ?_⟩
      · have : rows.length - d = 0 := by omega
        simp [this]
      · simp [List.drop_eq_nil_of_le h0]
      · have : rows.length - d = 0 := by omega
        simp [this]
      · have : rows.length - d = 0 := by omega
        simp [this]
    · push_neg at h0
      have hne : (rows.drop d).take P ≠ [] := by
        have : ((rows.drop d).take P).length = min P (rows.length - d) := by
          simp [List.length_take, List.length_drop]
        intro hnil
        rw [hnil] at this
        simp at this
        omega
      by_cases hshort : rows.length - d < P
      · have hlen1 : ((rows.drop d).take P).length = rows.length - d := by
          simp [List.length_take, List.length_drop]
          omega
        have hshortI : (((rows.drop d).take P).length : Int) < (P : Int) := by
          rw [hlen1]; exact_mod_cast hshort
        rw [jsonFetched_short _ _ _ _ hne hshortI]
        refine ⟨_, rfl, ?_, ?_, ?_, ?_⟩
        · simp [hlen1]
        · have : (rows.drop d).take P = rows.drop d := by
            apply List.take_of_length_le
            simp [List.length_drop]
            omega
          simp [this]
        · have : (rows.length - d) / P = 0 := Nat.div_eq_of_lt hshort
          simp [this]
        · have : (rows.length - d) / P = 0 := Nat.div_eq_of_lt hshort
          simp [this]
      · push_neg at hshort
        have hlen1 : ((rows.drop d).take P).length = P := by
          simp [List.length_take, List.length_drop]
          omega
        have hfullI : ¬ (((rows.drop d).take P).length : Int) < (P : Int) := by
          rw [hlen1]; omega
        rw [jsonFetched_full _ _ _ _ hne hfullI]
        have hrec := ih (d + P)
          ⟨s.offset + (P : Int), s.downloadedRows + (((rows.drop d).take P).length : Int),
            (writeRows s.isFirstChunk s.out ((rows.drop d).take P)).1,
            s.fetches ++ [⟨(P : Int), s.offset, (((rows.drop d).take P).length : Int)⟩],
            s.records ++ (rows.drop d).take P,
            (writeRows s.isFirstChunk s.out ((rows.drop d).take P)).2,
            s.progress ++ [mkProgress rtd
              (s.downloadedRows + (((rows.drop d).take P).length : Int))]⟩
          (by omega) (by omega)
          (by simp only [hoff]; push_cast; ring)
        obtain ⟨s', hs', hdl, hrec', hfet, hprog⟩ := hrec
        refine ⟨s', hs', ?_, ?_, ?_, ?_⟩
        · rw [hdl]
          simp only [hlen1]
          push_cast
          omega
        · rw [hrec']
          simp only [List.append_assoc]
          congr 1
          have hdd : rows.drop (d + P) = (rows.drop d).drop P := by
            rw [List.drop_drop]
          rw [hdd, List.take_append_drop]
        · rw [hfet]
          simp only [List.length_append, List.length_singleton]
          have : (rows.length - d) / P = (rows.length - (d + P)) / P + 1 := by
            have h2 : rows.length - (d + P) = (rows.length - d) - P := by omega
            rw [h2, Nat.div_eq_sub_div hP hshort]
          omega
        · rw [hprog]
          simp only [List.length_append, List.length_singleton]
          have : (rows.length - d) / P = (rows.length - (d + P)) / P + 1 := by
            have h2 : rows.length - (d + P) = (rows.length - d) - P := by omega
            rw [h2, Nat.div_eq_sub_div hP hshort]
          omega

/-- The fetch schedule is empty once the committed count reaches the total. -/
theorem knownFetches_stop (P T d : Nat) (h : T ≤ d ∨ P = 0) : knownFetches P T d = [] := by
  rw [knownFetches, dif_pos h]

/-- Unfolding of the fetch schedule while rows remain. -/
theorem knownFetches_cons (P T d : Nat) (hP : 0 < P) (hd : d < T) :
    knownFetches P T d
      = ⟨((min P (T - d) : Nat) : Int), ((d : Nat) : Int), ((min P (T - d) : Nat) : Int)⟩ ::
          knownFetches P T (d + min P (T - d)) := by
  rw [knownFetches, dif_neg (by omega)]

/-- Auxiliary induction for the fetch-schedule length. -/
theorem knownFetches_length_aux (P T : Nat) (hP : 0 < P) :
    ∀ (k d : Nat), T - d ≤ k → (knownFetches P T d).length = (T - d + P - 1) / P := by
  intro k
  induction k with
  | zero =>
    intro d hk
    have h1 : T ≤ d := by omega
    rw [knownFetches_stop _ _ _ (Or.inl h1)]
    have h2 : T - d + P - 1 = P - 1 := by omega
    rw [h2]
    simp only [List.length_nil]
    exact (Nat.div_eq_of_lt (by omega)).symm
  | succ k ih =>
    intro d hk
    by_cases hTd : T ≤ d
    · rw [knownFetches_stop _ _ _ (Or.inl hTd)]
      have h2 : T - d + P - 1 = P - 1 := by omega
      rw [h2]
      simp only [List.length_nil]
      exact (Nat.div_eq_of_lt (by omega)).symm
    · push_neg at hTd
      rw [knownFetches_cons P T d hP hTd]
      simp only [List.length_cons]
      rw [ih (d + min P (T - d)) (by omega)]
      by_cases hbig : P ≤ T - d
      · have hc : min P (T - d) = P := by omega
        rw [hc]
        have h1 : T - d + P - 1 = (T - (d + P) + P - 1) + P := by omega
        rw [h1, Nat.add_div_right _ hP]
      · push_neg at hbig
        have hc : min P (T - d) = T - d := by omega
        rw [hc]
        have h0 : T - (d + (T - d)) = 0 := by omega
        rw [h0]
        have h2 : (0 + P - 1) / P = 0 := Nat.div_eq_of_lt (by omega)
        rw [h2]
        have h3 : T - d + P - 1 = (T - d - 1) + P := by omega
        rw [h3, Nat.add_div_right _ hP, Nat.div_eq_of_lt (by omega)]

/-- The loop bounded by a truthy total `T` issues exactly
`ceil((T - d) / P)` fetches from `d` rows committed onward. -/
theorem knownFetches_length (P T d : Nat) (hP : 0 < P) :
    (knownFetches P T d).length = (T - d + P - 1) / P :=
  knownFetches_length_aux P T hP (T - d) d le_rfl

/-- Every scheduled fetch caps at the page size, never asks past the total,
asks for at least one row, and is answered in full. -/
theorem knownFetches_bounds (P T : Nat) :
    ∀ (k d : Nat), T - d ≤ k → ∀ f ∈ knownFetches P T d,
      f.cap ≤ (P : Int) ∧ f.cap + f.offset ≤ (T : Int) ∧ 0 < f.cap
        ∧ f.returned = f.cap := by
  intro k
  induction k with
  | zero =>
    intro d hk f hf
    have h1 : T ≤ d := by omega
    rw [knownFetches_stop _ _ _ (Or.inl h1)] at hf
    cases hf
  | succ k ih =>
    intro d hk f hf
    by_cases hTd : T ≤ d
    · rw [knownFetches_stop _ _ _ (Or.inl hTd)] at hf
      cases hf
    · push_neg at hTd
      by_cases hP : P = 0
      · rw [knownFetches_stop _ _ _ (Or.inr hP)] at hf
        cases hf
      · rw [knownFetches_cons P T d (by omega) hTd] at hf
        rcases List.mem_cons.mp hf with hf | hf
        · subst hf
          refine ⟨?_, ?_, ?_, rfl⟩ <;> simp <;> omega
        · exact ih (d + min P (T - d)) (by omega) f hf

/-- Master run lemma for a truthy total `T ≤ N` (the pre-counted total or an
absolute limit): from `d` rows committed the loop fetches exactly the
`knownFetches` schedule, every page full, commits rows `d` to `T`, and emits a
progress line after every page. -/
theorem jsonLoop_known (rows : List JRecord) (P T : Nat) (hP : 0 < P) (hT : 0 < T)
    (hTN : T ≤ rows.length) :
    ∀ (fuel d : Nat) (s : JsonSt), d ≤ T → T - d < fuel →
      s.offset = (d : Int) → s.downloadedRows = (d : Int) →
      ∃ s', jsonLoop (P : Int) (some (T : Int)) (stdJsonRemote rows) fuel s = some s'
        ∧ s'.downloadedRows = (T : Int)
        ∧ s'.offset = (T : Int)
        ∧ s'.records = s.records ++ (rows.drop d).take (T - d)
        ∧ s'.fetches = s.fetches ++ knownFetches P T d
        ∧ s'.progress.length = s.progress.length + (knownFetches P T d).length := by
  intro fuel
  induction fuel with
  | zero => intro d s _ hfuel _ _; omega
  | succ n ih =>
    intro d s hd hfuel hoff hdl
    have hcl : chunkLimitOf (P : Int) (some (T : Int)) s.downloadedRows
        = ((min P (T - d) : Nat) : Int) := by
      rw [hdl]
      exact chunkLimit_truthy P T d hT hd
    by_cases hTd : T ≤ d
    · have hdT : d = T := by omega
      have hcl0 : chunkLimitOf (P : Int) (some (T : Int)) s.downloadedRows ≤ 0 := by
        rw [hcl]
        have : T - d = 0 := by omega
        simp [this]
      rw [jsonLoop_succ, jsonStep_halt_limit _ _ _ _ hcl0]
      refine ⟨s, rfl, ?_, ?_, ?_, ?_, ?_⟩
      · rw [hdl, hdT]
      · rw [hoff, hdT]
      · have : T - d = 0 := by omega
        simp [this]
      · rw [knownFetches_stop _ _ _ (Or.inl hTd)]
        simp
      · rw [knownFetches_stop _ _ _ (Or.inl hTd)]
        simp
    · push_neg at hTd
      have hclpos : ¬ chunkLimitOf (P : Int) (some (T : Int)) s.downloadedRows ≤ 0 := by
        rw [hcl]
        omega
      rw [jsonLoop_succ, jsonStep_eq_fetched _ _ _ _ hclpos, hcl, hoff, stdJsonRemote_eq]
      have hlen1 : ((rows.drop d).take (min P (T - d))).length = min P (T - d) := by
        simp [List.length_take, List.length_drop]
        omega
      have hne : (rows.drop d).take (min P (T - d)) ≠ [] := by
        apply List.length_pos.mp
        rw [hlen1]
        omega
      have hfullI : ¬ (((rows.drop d).take (min P (T - d))).length : Int)
          < ((min P (T - d) : Nat) : Int) := by
        rw [hlen1]
        omega
      rw [jsonFetched_full _ _ _ _ hne hfullI]
      have hrec := ih (d + min P (T - d))
        ⟨s.offset + ((min P (T - d) : Nat) : Int),
          s.downloadedRows + ((((rows.drop d).take (min P (T - d))).length : Nat) : Int),
          (writeRows s.isFirstChunk s.out ((rows.drop d).take (min P (T - d)))).1,
          s.fetches ++ [⟨((min P (T - d) : Nat) : Int), s.offset,
            ((((rows.drop d).take (min P (T - d))).length : Nat) : Int)⟩],
          s.records ++ (rows.drop d).take (min P (T - d)),
          (writeRows s.isFirstChunk s.out ((rows.drop d).take (min P (T - d)))).2,
          s.progress ++ [mkProgress (some (T : Int))
            (s.downloadedRows + ((((rows.drop d).take (min P (T - d))).length : Nat) : Int))]⟩
        (by omega) (by omega)
        (by simp only [hoff]; push_cast; ring)
        (by simp only [hdl, hlen1]; push_cast; ring)
      obtain ⟨s', hs', hdl2, hoff2, hrec2, hfet2, hprog2⟩ := hrec
      refine ⟨s', hs', hdl2, hoff2, ?_, ?_, ?_⟩
      · rw [hrec2]
        simp only [List.append_assoc]
        congr 1
        have hdd : rows.drop (d + min P (T - d)) = (rows.drop d).drop (min P (T - d)) := by
          rw [List.drop_drop]
        rw [hdd, ← List.take_add]
        congr 1
        omega
      · rw [hfet2, knownFetches_cons P T d hP hTd]
        simp [hoff, hlen1, List.append_assoc]
      · rw [hprog2, knownFetches_cons P T d hP hTd]
        simp
        omega

/-- CSV analogue of the positive-limit iteration exit. -/
theorem csvStep_halt_limit (cs : Int) (rtd : Option Int) (remote : Int → Int → List String)
    (s : CsvSt) (h : chunkLimitOf cs rtd s.downloadedRows ≤ 0) :
    csvStep cs rtd remote s = .halt s := by
  simp [csvStep, h]

/-- With a positive chunk limit the CSV iteration fetches one page. -/
theorem csvStep_eq_fetched (cs : Int) (rtd : Option Int) (remote : Int → Int → List String)
    (s : CsvSt) (h : ¬ chunkLimitOf cs rtd s.downloadedRows ≤ 0) :
    csvStep cs rtd remote s
      = csvFetched (chunkLimitOf cs rtd s.downloadedRows) rtd s
          (remote (chunkLimitOf cs rtd s.downloadedRows) s.offset) := by
  simp [csvStep, h]

/-- Break of line 362 when the split has at most one segment: fetch recorded,
nothing written. -/
theorem csvFetched_le1 (cl : Int) (rtd : Option Int) (s : CsvSt) (lines : List String)
    (h : lines.length ≤ 1) :
    csvFetched cl rtd s lines
      = .halt { s with
          fetches := s.fetches ++ [⟨cl, s.offset, (lines.length : Int) - 1⟩] } := by
  simp [csvFetched, h]

/-- Break of line 375 on a short line count: the page's data lines are
appended (whole chunk if first, header dropped otherwise) and the loop halts. -/
theorem csvFetched_short (cl : Int) (rtd : Option Int) (s : CsvSt) (lines : List String)
    (h1 : ¬ lines.length ≤ 1) (h2 : (lines.length : Int) - 1 < cl) :
    csvFetched cl rtd s lines
      = .halt ⟨s.offset, s.downloadedRows + ((lines.length : Int) - 1), false,
          s.fetches ++ [⟨cl, s.offset, (lines.length : Int) - 1⟩],
          s.out ++ (if s.isFirstChunk then joinLines lines else joinLines (lines.drop 1)),
          s.progress⟩ := by
  simp [csvFetched, h1, h2]

/-- A CSV page whose counted lines fill the cap: append, advance, emit
progress, continue. -/
theorem csvFetched_full (cl : Int) (rtd : Option Int) (s : CsvSt) (lines : List String)
    (h1 : ¬ lines.length ≤ 1) (h2 : ¬ (lines.length : Int) - 1 < cl) :
    csvFetched cl rtd s lines
      = .cont ⟨s.offset + cl, s.downloadedRows + ((lines.length : Int) - 1), false,
          s.fetches ++ [⟨cl, s.offset, (lines.length : Int) - 1⟩],
          s.out ++ (if s.isFirstChunk then joinLines lines else joinLines (lines.drop 1)),
          s.progress ++ [mkProgress rtd (s.downloadedRows + ((lines.length : Int) - 1))]⟩ := by
  simp [csvFetched, h1, h2]

/-- Unfolding of the fueled CSV loop. -/
theorem csvLoop_succ (cs : Int) (rtd : Option Int) (remote : Int → Int → List String)
    (fuel : Nat) (s : CsvSt) :
    csvLoop cs rtd remote (fuel + 1) s
      = match csvStep cs rtd remote s with
        | .halt s' => some s'
        | .cont s' => csvLoop cs rtd remote fuel s' := rfl

/-- The loop emits exactly one progress line per page whose reply filled the
requested cap, and none for the short or empty page that breaks the loop. -/
theorem jsonLoop_progress_count (cs : Int) (rtd : Option Int)
    (remote : Int → Int → List JRecord) :
    ∀ (fuel : Nat) (s s' : JsonSt), jsonLoop cs rtd remote fuel s = some s' →
      s'.progress.length + (s.fetches.filter isFullPage).length
        = s.progress.length + (s'.fetches.filter isFullPage).length := by
  intro fuel
  induction fuel with
  | zero => intro s s' h; cases h
  | succ n ih =>
    intro s s' h
    rw [jsonLoop_succ] at h
    by_cases hcl : chunkLimitOf cs rtd s.downloadedRows ≤ 0
    · rw [jsonStep_halt_limit _ _ _ _ hcl] at h
      cases h
      rfl
    · rw [jsonStep_eq_fetched _ _ _ _ hcl] at h
      by_cases hr : remote (chunkLimitOf cs rtd s.downloadedRows) s.offset = []
      · rw [hr, jsonFetched_empty] at h
        cases h
        have hf : isFullPage ⟨chunkLimitOf cs rtd s.downloadedRows, s.offset, 0⟩ = false := by
          simp [isFullPage]
          omega
        simp [List.filter_append, List.filter, hf]
      · by_cases hshort : ((remote (chunkLimitOf cs rtd s.downloadedRows) s.offset).length : Int)
            < chunkLimitOf cs rtd s.downloadedRows
        · rw [jsonFetched_short _ _ _ _ hr hshort] at h
          cases h
          have hf : isFullPage ⟨chunkLimitOf cs rtd s.downloadedRows, s.offset,
              ((remote (chunkLimitOf cs rtd s.downloadedRows) s.offset).length : Int)⟩
              = false := by
            simp [isFullPage]
            omega
          simp [List.filter_append, List.filter, hf]
        · rw [jsonFetched_full _ _ _ _ hr hshort] at h
          have hrec := ih _ s' h
          have hf : isFullPage ⟨chunkLimitOf cs rtd s.downloadedRows, s.offset,
              ((remote (chunkLimitOf cs rtd s.downloadedRows) s.offset).length : Int)⟩
              = true := by
            simp [isFullPage]
            omega
          simp only [List.filter_append, List.filter, hf, List.length_append] at hrec ⊢
          simp at hrec ⊢
          omega

/-- Every progress line the loop ever emits has the shape the code prints:
committed-vs-total when `rowsToDownload` is truthy, committed alone
otherwise. -/
theorem jsonLoop_progress_shape (cs : Int) (rtd : Option Int)
    (remote : Int → Int → List JRecord) :
    ∀ (fuel : Nat) (s s' : JsonSt), jsonLoop cs rtd remote fuel s = some s' →
      (∀ e ∈ s.progress, ∃ dl, e = mkProgress rtd dl) →
      ∀ e ∈ s'.progress, ∃ dl, e = mkProgress rtd dl := by
  intro fuel
  induction fuel with
  | zero => intro s s' h; cases h
  | succ n ih =>
    intro s s' h hs
    rw [jsonLoop_succ] at h
    by_cases hcl : chunkLimitOf cs rtd s.downloadedRows ≤ 0
    · rw [jsonStep_halt_limit _ _ _ _ hcl] at h
      cases h
      exact hs
    · rw [jsonStep_eq_fetched _ _ _ _ hcl] at h
      by_cases hr : remote (chunkLimitOf cs rtd s.downloadedRows) s.offset = []
      · rw [hr, jsonFetched_empty] at h
        cases h
        exact hs
      · by_cases hshort : ((remote (chunkLimitOf cs rtd s.downloadedRows) s.offset).length : Int)
            < chunkLimitOf cs rtd s.downloadedRows
        · rw [jsonFetched_short _ _ _ _ hr hshort] at h
          cases h
          exact hs
        · rw [jsonFetched_full _ _ _ _ hr hshort] at h
          refine ih _ s' h ?_
          intro e he
          rcases List.mem_append.mp he with he | he
          · exact hs e he
          · rcases List.mem_singleton.mp he with rfl
            exact ⟨_, rfl⟩

/-- CSV analogue of the progress accounting: one progress line per page whose
counted line number (`lines.length - 1`, which includes the trailing empty
split segment) reached the requested cap, and none for the page that breaks
the loop. -/
theorem csvLoop_progress_count (cs : Int) (rtd : Option Int)
    (remote : Int → Int → List String) :
    ∀ (fuel : Nat) (s s' : CsvSt), csvLoop cs rtd remote fuel s = some s' →
      s'.progress.length + (s.fetches.filter isFullPage).length
        = s.progress.length + (s'.fetches.filter isFullPage).length := by
  intro fuel
  induction fuel with
  | zero => intro s s' h; cases h
  | succ n ih =>
    intro s s' h
    rw [csvLoop_succ] at h
    by_cases hcl : chunkLimitOf cs rtd s.downloadedRows ≤ 0
    · rw [csvStep_halt_limit _ _ _ _ hcl] at h
      cases h
      rfl
    · rw [csvStep_eq_fetched _ _ _ _ hcl] at h
      by_cases h1 : (remote (chunkLimitOf cs rtd s.downloadedRows) s.offset).length ≤ 1
      · rw [csvFetched_le1 _ _ _ _ h1] at h
        cases h
        have hf : isFullPage ⟨chunkLimitOf cs rtd s.downloadedRows, s.offset,
            ((remote (chunkLimitOf cs rtd s.downloadedRows) s.offset).length : Int) - 1⟩
            = false := by
          simp [isFullPage]
          omega
        simp [List.filter_append, List.filter, hf]
      · by_cases hshort : ((remote (chunkLimitOf cs rtd s.downloadedRows) s.offset).length : Int)
            - 1 < chunkLimitOf cs rtd s.downloadedRows
        · rw [csvFetched_short _ _ _ _ h1 hshort] at h
          cases h
          have hf : isFullPage ⟨chunkLimitOf cs rtd s.downloadedRows, s.offset,
              ((remote (chunkLimitOf cs rtd s.downloadedRows) s.offset).length : Int) - 1⟩
              = false := by
            simp [isFullPage]
            omega
          simp [List.filter_append, List.filter, hf]
        · rw [csvFetched_full _ _ _ _ h1 hshort] at h
          have hrec := ih _ s' h
          have hf : isFullPage ⟨chunkLimitOf cs rtd s.downloadedRows, s.offset,
              ((remote (chunkLimitOf cs rtd s.downloadedRows) s.offset).length : Int) - 1⟩
              = true := by
            simp [isFullPage]
            omega
          simp only [List.filter_append, List.filter, hf, List.length_append] at hrec ⊢
          simp at hrec ⊢
          omega

/-- CSV analogue of the progress-shape invariant. -/
theorem csvLoop_progress_shape (cs : Int) (rtd : Option Int)
    (remote : Int → Int → List String) :
    ∀ (fuel : Nat) (s s' : CsvSt), csvLoop cs rtd remote fuel s = some s' →
      (∀ e ∈ s.progress, ∃ dl, e = mkProgress rtd dl) →
      ∀ e ∈ s'.progress, ∃ dl, e = mkProgress rtd dl := by
  intro fuel
  induction fuel with
  | zero => intro s s' h; cases h
  | succ n ih =>
    intro s s' h hs
    rw [csvLoop_succ] at h
    by_cases hcl : chunkLimitOf cs rtd s.downloadedRows ≤ 0
    · rw [csvStep_halt_limit _ _ _ _ hcl] at h
      cases h
      exact hs
    · rw [csvStep_eq_fetched _ _ _ _ hcl] at h
      by_cases h1 : (remote (chunkLimitOf cs rtd s.downloadedRows) s.offset).length ≤ 1
      · rw [csvFetched_le1 _ _ _ _ h1] at h
        cases h
        exact hs
      · by_cases hshort : ((remote (chunkLimitOf cs rtd s.downloadedRows) s.offset).length : Int)
            - 1 < chunkLimitOf cs rtd s.downloadedRows
        · rw [csvFetched_short _ _ _ _ h1 hshort] at h
          cases h
          exact hs
        · rw [csvFetched_full _ _ _ _ h1 hshort] at h
          refine ih _ s' h ?_
          intro e he
          rcases List.mem_append.mp he with he | he
          · exact hs e he
          · rcases List.mem_singleton.mp he with rfl
            exact ⟨_, rfl⟩

/-- Joining a line list that ends in the empty segment of a trailing newline
reproduces the newline-terminated block. -/
theorem joinLines_trailing :
    ∀ ls : List String, joinLines (ls ++ [""]) = catMap (fun l => l ++ "\n") ls := by
  intro ls
  induction ls with
  | nil => rfl
  | cons a as ih =>
    cases as with
    | nil =>
      show joinLines [a, ""] = catMap (fun l => l ++ "\n") [a]
      simp [joinLines, catMap, String.append_assoc]
    | cons b bs =>
      have h1 : (a :: b :: bs) ++ [""] = a :: ((b :: bs) ++ [""]) := rfl
      have h2 : joinLines (a :: ((b :: bs) ++ [""]))
          = a ++ "\n" ++ joinLines ((b :: bs) ++ [""]) := rfl
      rw [h1, h2, ih]
      simp [catMap, String.append_assoc]

/-- The stipulated CSV remote evaluated at natural cap and offset. -/
theorem stdCsvRemote_eq (hdr : String) (rs : List String) (c d : Nat) :
    stdCsvRemote hdr rs (c : Int) (d : Int) = hdr :: ((rs.drop d).take c ++ [""]) := by
  simp [stdCsvRemote]

/-- Master run lemma for CSV mode with a falsy `rowsToDownload` and the
first page already written: from offset `d` the loop appends exactly the
remaining data lines, each newline-terminated, and halts. -/
theorem csvLoop_unknown (hdr : String) (rs : List String) (P : Nat) (hP : 2 ≤ P)
    (rtd : Option Int) (hrtd : truthyOpt rtd = false) :
    ∀ (fuel d : Nat) (s : CsvSt), rs.length - d + 3 ≤ fuel → s.offset = (d : Int) →
      s.isFirstChunk = false →
      ∃ s', csvLoop (P : Int) rtd (stdCsvRemote hdr rs) fuel s = some s'
        ∧ s'.out = s.out ++ catMap (fun l => l ++ "\n") (rs.drop d) := by
  intro fuel
  induction fuel with
  | zero => intro d s hfuel _ _; omega
  | succ n ih =>
    intro d s hfuel hoff hflag
    have hcl : chunkLimitOf (P : Int) rtd s.downloadedRows = (P : Int) :=
      chunkLimit_falsy _ _ hrtd _
    have hclpos : ¬ chunkLimitOf (P : Int) rtd s.downloadedRows ≤ 0 := by
      rw [hcl]; omega
    rw [csvLoop_succ, csvStep_eq_fetched _ _ _ _ hclpos, hcl, hoff, stdCsvRemote_eq]
    have hslice : ((rs.drop d).take P).length = min P (rs.length - d) := by
      simp [List.length_take, List.length_drop]
    have hlines : (hdr :: ((rs.drop d).take P ++ [""])).length
        = ((rs.drop d).take P).length + 2 := by
      simp
    have h1 : ¬ (hdr :: ((rs.drop d).take P ++ [""])).length ≤ 1 := by
      rw [hlines]; omega
    by_cases hshort : ((hdr :: ((rs.drop d).take P ++ [""])).length : Int) - 1 < (P : Int)
    · rw [csvFetched_short _ _ _ _ h1 hshort]
      refine ⟨_, rfl, ?_⟩
      have hsmall : rs.length - d < P := by
        rw [hlines] at hshort
        push_cast at hshort
        omega
      have htake : (rs.drop d).take P = rs.drop d := by
        apply List.take_of_length_le
        simp [List.length_drop]
        omega
      rw [hflag]
      simp only [if_neg Bool.false_ne_true, List.drop_one, List.tail_cons]
      rw [joinLines_trailing, htake]
    · rw [csvFetched_full _ _ _ _ h1 hshort]
      have hfull : P ≤ min P (rs.length - d) + 1 := by
        rw [hlines] at hshort
        push_cast at hshort
        omega
      have hrec := ih (d + P)
        ⟨s.offset + (P : Int),
          s.downloadedRows + (((hdr :: ((rs.drop d).take P ++ [""])).length : Int) - 1), false,
          s.fetches ++ [⟨(P : Int), s.offset,
            ((hdr :: ((rs.drop d).take P ++ [""])).length : Int) - 1⟩],
          s.out ++ (if s.isFirstChunk then joinLines (hdr :: ((rs.drop d).take P ++ [""]))
            else joinLines ((hdr :: ((rs.drop d).take P ++ [""])).drop 1)),
          s.progress ++ [mkProgress rtd (s.downloadedRows
            + (((hdr :: ((rs.drop d).take P ++ [""])).length : Int) - 1))]⟩
        (by omega)
        (by simp only [hoff]; push_cast; ring)
        rfl
      obtain ⟨s', hs', hout⟩ := hrec
      refine ⟨s', hs', ?_⟩
      rw [hout]
      dsimp only
      rw [hflag]
      simp only [if_neg Bool.false_ne_true, List.drop_one, List.tail_cons]
      rw [joinLines_trailing, String.append_assoc, ← catMap_append]
      congr 2
      rw [show rs.drop (d + P) = (rs.drop d).drop P from by rw [List.drop_drop]]
      rw [List.take_append_drop]

/-- Gate outcome when confirmation applies and the operator accepts. -/
theorem gate_confirm_yes (c : Int) (ans : String) (h : confirmDownload ans = true) :
    gate false none c ans = ⟨true, true, false, some c⟩ := by
  simp [gate, h, truthyOpt, jsOr]

/-- Gate outcome when confirmation applies and the operator declines. -/
theorem gate_confirm_no (c : Int) (ans : String) (h : confirmDownload ans = false) :
    gate false none c ans = ⟨true, true, true, some c⟩ := by
  simp [gate, h, truthyOpt, jsOr]

/-- Gate outcome when confirmation is suppressed: no count, no prompt, and
`rowsToDownload` falls back on the (undefined) total, keeping a truthy limit
only. -/
theorem gate_noConfirm (limit : Option Int) (c : Int) (ans : String) :
    gate true limit c ans = ⟨false, false, false, jsOr limit none⟩ := by
  simp [gate]

/-- Gate outcome when a truthy absolute limit is set: the count and prompt are
skipped and the limit becomes `rowsToDownload`. -/
theorem gate_limit (nc : Bool) (limit : Option Int) (h : truthyOpt limit = true)
    (c : Int) (ans : String) : gate nc limit c ans = ⟨false, false, false, limit⟩ := by
  cases nc <;> simp [gate, h, jsOr]

/-- Reduction of the JSON download model once the metadata fetch succeeded. -/
theorem downloadDatasetJson_ok (nc : Bool) (limit : Option Int) (c : Int) (ans : String)
    (cs : Int) (remote : Int → Int → List JRecord) (fuel : Nat) :
    downloadDatasetJson (.ok ()) nc limit c ans cs remote fuel
      = if (gate nc limit c ans).cancelled then .cancelled "Download cancelled."
        else match runJson cs (gate nc limit c ans).rowsToDownload remote fuel with
          | none => .outOfFuel
          | some s => .done s := rfl

/-- Reduction of the CSV download model once the metadata fetch succeeded. -/
theorem downloadDatasetCsv_ok (nc : Bool) (limit : Option Int) (c : Int) (ans : String)
    (cs : Int) (remote : Int → Int → List String) (fuel : Nat) :
    downloadDatasetCsv (.ok ()) nc limit c ans cs remote fuel
      = if (gate nc limit c ans).cancelled then .cancelled "Download cancelled."
        else match runCsv cs (gate nc limit c ans).rowsToDownload remote fuel with
          | none => .outOfFuel
          | some s => .done s := rfl

/-- A completed JSON download with a truthy total `T` bounding the loop:
exactly `ceil(T / P)` full-cap fetches, `T` rows committed, and a progress
line after every page. -/
theorem runJson_known (rows : List JRecord) (P T : Nat) (fuel : Nat) (hP : 0 < P)
    (hT : 0 < T) (hTN : T ≤ rows.length) (hfuel : T < fuel) :
    ∃ s, runJson (P : Int) (some (T : Int)) (stdJsonRemote rows) fuel = some s
      ∧ s.downloadedRows = (T : Int)
      ∧ s.records = rows.take T
      ∧ s.fetches = knownFetches P T 0
      ∧ s.fetches.length = (T + P - 1) / P
      ∧ s.progress.length = (knownFetches P T 0).length := by
  obtain ⟨s0, hs0, hdl, _, hrec, hfet, hprog⟩ :=
    jsonLoop_known rows P T hP hT hTN fuel 0 initJsonSt (by omega) (by omega) rfl rfl
  simp only [initJsonSt, List.nil_append, List.drop_zero, Nat.sub_zero, List.length_nil,
    Nat.zero_add] at hrec hfet hprog
  refine ⟨{ s0 with out := s0.out ++ "\n]\n" }, ?_, ?_, ?_, ?_, ?_, ?_⟩
  · rw [runJson, hs0]
    rfl
  · show s0.downloadedRows = (T : Int)
    exact hdl
  · show s0.records = rows.take T
    exact hrec
  · show s0.fetches = knownFetches P T 0
    exact hfet
  · show s0.fetches.length = (T + P - 1) / P
    rw [hfet, knownFetches_length P T 0 hP, Nat.sub_zero]
  · show s0.progress.length = (knownFetches P T 0).length
    omega

/-- A completed JSON download whose loop sees no truthy total: every row is
committed, with `N / P` full pages each followed by a progress line and one
final short or empty probe fetch with none. -/
theorem runJson_unknownTotal (rows : List JRecord) (P : Nat) (rtd : Option Int)
    (fuel : Nat) (hP : 0 < P) (hrtd : truthyOpt rtd = false)
    (hfuel : rows.length + 2 ≤ fuel) :
    ∃ s, runJson (P : Int) rtd (stdJsonRemote rows) fuel = some s
      ∧ s.downloadedRows = (rows.length : Int)
      ∧ s.records = rows
      ∧ s.fetches.length = rows.length / P + 1
      ∧ s.progress.length = rows.length / P := by
  obtain ⟨s0, hs0, hdl, hrec, hfet, hprog⟩ :=
    jsonLoop_unknown rows P hP rtd hrtd fuel 0 initJsonSt (by omega) (by omega) rfl
  simp only [initJsonSt, List.nil_append, List.drop_zero, Nat.sub_zero, List.length_nil,
    Nat.zero_add, Int.add_zero, Int.zero_add] at hdl hrec hfet hprog
  refine ⟨{ s0 with out := s0.out ++ "\n]\n" }, ?_, ?_, ?_, ?_, ?_⟩
  · rw [runJson, hs0]
    rfl
  · show s0.downloadedRows = (rows.length : Int)
    exact hdl
  · show s0.records = rows
    exact hrec
  · show s0.fetches.length = rows.length / P + 1
    exact hfet
  · show s0.progress.length = rows.length / P
    exact hprog

/-- A completed CSV download whose loop sees no truthy total, against the
newline-terminated wire format: the output is the canonical single-header
newline-terminated block, independent of the page size. -/
theorem runCsv_unknownTotal (hdr : String) (rs : List String) (P : Nat) (rtd : Option Int)
    (fuel : Nat) (hP : 2 ≤ P) (hrtd : truthyOpt rtd = false)
    (hfuel : rs.length + 4 ≤ fuel) :
    ∃ s, runCsv (P : Int) rtd (stdCsvRemote hdr rs) fuel = some s
      ∧ s.out = catMap (fun l => l ++ "\n") (hdr :: rs) := by
  cases fuel with
  | zero => omega
  | succ n =>
    have hcl : chunkLimitOf (P : Int) rtd initCsvSt.downloadedRows = (P : Int) :=
      chunkLimit_falsy _ _ hrtd _
    have hclpos : ¬ chunkLimitOf (P : Int) rtd initCsvSt.downloadedRows ≤ 0 := by
      rw [hcl]; omega
    have hoff0 : initCsvSt.offset = ((0 : Nat) : Int) := rfl
    rw [runCsv, csvLoop_succ, csvStep_eq_fetched _ _ _ _ hclpos, hcl, hoff0,
      stdCsvRemote_eq, List.drop_zero]
    have h1 : ¬ (hdr :: (rs.take P ++ [""])).length ≤ 1 := by
      simp
    by_cases hshort : ((hdr :: (rs.take P ++ [""])).length : Int) - 1 < (P : Int)
    · rw [csvFetched_short _ _ _ _ h1 hshort]
      refine ⟨_, rfl, ?_⟩
      have hsmall : rs.length < P := by
        have : (hdr :: (rs.take P ++ [""])).length = min P rs.length + 2 := by
          simp [List.length_take]
        rw [this] at hshort
        push_cast at hshort
        omega
      have htake : rs.take P = rs := List.take_of_length_le (by omega)
      have hfl : initCsvSt.isFirstChunk = true := rfl
      dsimp only
      rw [hfl]
      simp only [if_pos]
      rw [show hdr :: (rs.take P ++ [""]) = (hdr :: rs.take P) ++ [""] from rfl]
      rw [joinLines_trailing, htake]
      exact (String.empty_append _).symm ▸ rfl
    · rw [csvFetched_full _ _ _ _ h1 hshort]
      have hbig : P ≤ min P rs.length + 1 := by
        have : (hdr :: (rs.take P ++ [""])).length = min P rs.length + 2 := by
          simp [List.length_take]
        rw [this] at hshort
        push_cast at hshort
        omega
      obtain ⟨s', hs', hout⟩ := csvLoop_unknown hdr rs P hP rtd hrtd n P
        ⟨initCsvSt.offset + (P : Int),
          initCsvSt.downloadedRows + (((hdr :: (rs.take P ++ [""])).length : Int) - 1), false,
          initCsvSt.fetches ++ [⟨(P : Int), initCsvSt.offset,
            ((hdr :: (rs.take P ++ [""])).length : Int) - 1⟩],
          initCsvSt.out ++ (if initCsvSt.isFirstChunk
            then joinLines (hdr :: (rs.take P ++ [""]))
            else joinLines ((hdr :: (rs.take P ++ [""])).drop 1)),
          initCsvSt.progress ++ [mkProgress rtd (initCsvSt.downloadedRows
            + (((hdr :: (rs.take P ++ [""])).length : Int) - 1))]⟩
        (by omega)
        (by simp [initCsvSt])
        rfl
      refine ⟨s', hs', ?_⟩
      rw [hout]
      dsimp only
      have hfl : initCsvSt.isFirstChunk = true := rfl
      rw [hfl]
      simp only [if_pos]
      rw [show hdr :: (rs.take P ++ [""]) = (hdr :: rs.take P) ++ [""] from rfl]
      rw [joinLines_trailing]
      rw [show catMap (fun l => l ++ "\n") (hdr :: rs.take P)
            = hdr ++ "\n" ++ catMap (fun l => l ++ "\n") (rs.take P) from rfl]
      rw [show catMap (fun l => l ++ "\n") (hdr :: rs)
            = hdr ++ "\n" ++ catMap (fun l => l ++ "\n") rs from rfl]
      rw [show initCsvSt.out = "" from rfl, String.empty_append]
      rw [String.append_assoc, ← catMap_append, List.take_append_drop]

/-- C1, counterexample: with no absolute row limit and confirmation
suppressed, a 1-row dataset downloaded with page size 1 issues 2 page fetches
(a full page plus the empty probe that ends the loop), while
ceil(N / P) = ceil(1 / 1) = 1, so the claimed fetch count is wrong. -/
theorem c1_pagination_counterexample :
    onDone (fun s => s.fetches.length)
      (downloadDatasetJson (.ok ()) true none 0 "" 1
        (stdJsonRemote [[("a", JScalar.num 0)]]) 5) = some 2
    ∧ (1 + 1 - 1) / 1 = 1 ∧ (2 : Nat) ≠ 1 := by
  decide

/-- C1, amended: in JSON mode the committed rows always sum to N, with
ceil(N / P) fetches on the confirmation path where the pre-counted total
N > 0 bounds the loop, and floor(N / P) + 1 fetches when the total is unknown
to the loop (confirmation suppressed) — one more than ceil(N / P) whenever P
divides N, the extra fetch being the empty or short probe that ends the loop.
In CSV mode the committed-row counter additionally counts each page's trailing
empty split segment, so it does not equal N: on the unknown-total path with
page size at least 2 the file still receives exactly the N data rows behind a
single header, while on the pre-counted path the inflated counter shrinks
later caps, ending above N (26 for N = 25, P = 10) with trailing data rows
lost. -/
theorem c1_pagination_amended :
    (∀ (rows : List JRecord) (P N : Nat) (ans : String) (fuel : Nat),
      0 < P → rows.length = N → N + 2 ≤ fuel → 0 < N → confirmDownload ans = true →
      ∃ s, downloadDatasetJson (.ok ()) false none (N : Int) ans (P : Int)
          (stdJsonRemote rows) fuel = .done s
        ∧ s.fetches.length = (N + P - 1) / P
        ∧ s.downloadedRows = (N : Int)
        ∧ s.records = rows)
    ∧ (∀ (rows : List JRecord) (P N : Nat) (c : Int) (ans : String) (fuel : Nat),
      0 < P → rows.length = N → N + 2 ≤ fuel →
      ∃ s, downloadDatasetJson (.ok ()) true none c ans (P : Int)
          (stdJsonRemote rows) fuel = .done s
        ∧ s.fetches.length = N / P + 1
        ∧ s.downloadedRows = (N : Int)
        ∧ s.records = rows)
    ∧ (∀ (hdr : String) (rs : List String) (P : Nat) (c : Int) (ans : String) (fuel : Nat),
      2 ≤ P → rs.length + 4 ≤ fuel →
      ∃ s, downloadDatasetCsv (.ok ()) true none c ans (P : Int)
          (stdCsvRemote hdr rs) fuel = .done s
        ∧ s.out = catMap (fun l => l ++ "\n") (hdr :: rs))
    ∧ onDone (fun s => s.downloadedRows)
        (downloadDatasetCsv (.ok ()) false none 25 "y" 10
          (stdCsvRemote "h" ((List.range 25).map (fun i => "r" ++ toString i))) 9)
        = some 26
    ∧ (26 : Int) ≠ 25 := by
  refine ⟨?_, ?_, ?_, by decide, by decide⟩
  · intro rows P N ans fuel hP hN hfuel hN0 hconf
    subst hN
    obtain ⟨s, hs, hdl, hrec, _, hlen, _⟩ :=
      runJson_known rows P rows.length fuel hP hN0 le_rfl (by omega)
    have hred : downloadDatasetJson (.ok ()) false none (rows.length : Int) ans (P : Int)
        (stdJsonRemote rows) fuel
        = match runJson (P : Int) (some (rows.length : Int)) (stdJsonRemote rows) fuel with
          | none => .outOfFuel
          | some s => .done s := by
      rw [downloadDatasetJson_ok, gate_confirm_yes _ _ hconf]
      rfl
    refine ⟨s, ?_, hlen, hdl, ?_⟩
    · rw [hred, hs]
    · rw [hrec, List.take_length]
  · intro rows P N c ans fuel hP hN hfuel
    subst hN
    obtain ⟨s, hs, hdl, hrec, hlen, _⟩ :=
      runJson_unknownTotal rows P none fuel hP rfl (by omega)
    have hred : downloadDatasetJson (.ok ()) true none c ans (P : Int)
        (stdJsonRemote rows) fuel
        = match runJson (P : Int) none (stdJsonRemote rows) fuel with
          | none => .outOfFuel
          | some s => .done s := by
      rw [downloadDatasetJson_ok, gate_noConfirm]
      rfl
    exact ⟨s, by rw [hred, hs], hlen, hdl, hrec⟩
  · intro hdr rs P c ans fuel hP hfuel
    obtain ⟨s, hs, hout⟩ := runCsv_unknownTotal hdr rs P none fuel hP rfl hfuel
    have hred : downloadDatasetCsv (.ok ()) true none c ans (P : Int)
        (stdCsvRemote hdr rs) fuel
        = match runCsv (P : Int) none (stdCsvRemote hdr rs) fuel with
          | none => .outOfFuel
          | some s => .done s := by
      rw [downloadDatasetCsv_ok, gate_noConfirm]
      rfl
    exact ⟨s, by rw [hred, hs], hout⟩

/-- C1, witness for the amended claim: a 3-row JSON dataset with page size 2
on the confirmation path issues ceil(3 / 2) = 2 fetches and commits all 3
rows. -/
theorem c1_pagination_witness :
    (∃ s, downloadDatasetJson (.ok ()) false none 3 "y" 2
        (stdJsonRemote [[("a", JScalar.num 0)], [("a", JScalar.num 1)],
          [("a", JScalar.num 2)]]) 5 = .done s
      ∧ s.fetches.length = (3 + 2 - 1) / 2
      ∧ s.downloadedRows = 3
      ∧ s.records = [[("a", JScalar.num 0)], [("a", JScalar.num 1)], [("a", JScalar.num 2)]]) := by
  have h := c1_pagination_amended.1
    [[("a", JScalar.num 0)], [("a", JScalar.num 1)], [("a", JScalar.num 2)]]
    2 3 "y" 5 (by decide) (by decide) (by decide) (by decide) (by decide)
  exact_mod_cast h

/-- C2, counterexample: a CSV download with absolute limit L = 5 over 6
matching rows at page size 2 does not commit exactly L rows — the counter
counts each page's trailing empty split segment, ending at 6, and only the 4
data lines r0..r3 are written to the file. -/
theorem c2_limit_counterexample :
    onDone (fun s => (s.downloadedRows, s.out))
      (downloadDatasetCsv (.ok ()) true (some 5) 0 "" 2
        (stdCsvRemote "h" ((List.range 6).map (fun i => "r" ++ toString i))) 9)
      = some (6, "h\nr0\nr1\nr2\nr3\n")
    ∧ (6 : Int) ≠ 5 := by
  decide

/-- C2, amended: in JSON mode the original claim holds verbatim — with
0 < L < N exactly L rows are committed in exactly ceil(L / P) fetches, no
fetch requests more than the page size or than the remaining distance to L,
and when L < P the very first request is capped to L. In CSV mode the
committed counter counts the trailing empty segment of every page, so the
loop stops against the inflated counter and the file receives fewer than L
data lines when pages span the limit (with L = 3, P = 2 the counter reaches 3
but only the 2 data lines r0, r1 are written). -/
theorem c2_limit_amended :
    (∀ (rows : List JRecord) (L P : Nat) (nc : Bool) (c : Int) (ans : String) (fuel : Nat),
      0 < P → 0 < L → L < rows.length → L < fuel →
      ∃ s, downloadDatasetJson (.ok ()) nc (some (L : Int)) c ans (P : Int)
          (stdJsonRemote rows) fuel = .done s
        ∧ s.downloadedRows = (L : Int)
        ∧ s.records = rows.take L
        ∧ s.fetches.length = (L + P - 1) / P
        ∧ (∀ f ∈ s.fetches, f.cap ≤ (P : Int) ∧ f.cap + f.offset ≤ (L : Int) ∧ 0 < f.cap)
        ∧ (L < P → s.fetches.head? = some ⟨(L : Int), 0, (L : Int)⟩))
    ∧ onDone (fun s => (s.downloadedRows, s.out))
        (downloadDatasetCsv (.ok ()) true (some 3) 0 "" 2
          (stdCsvRemote "h" ((List.range 4).map (fun i => "r" ++ toString i))) 9)
        = some (3, "h\nr0\nr1\n") := by
  refine ⟨?_, by decide⟩
  intro rows L P nc c ans fuel hP hL hLN hfuel
  have htr : truthyOpt (some (L : Int)) = true := by
    simp [truthyOpt]
    omega
  obtain ⟨s, hs, hdl, hrec, hfetv, hlen, _⟩ :=
    runJson_known rows P L fuel hP hL (le_of_lt hLN) hfuel
  have hred : downloadDatasetJson (.ok ()) nc (some (L : Int)) c ans (P : Int)
      (stdJsonRemote rows) fuel
      = match runJson (P : Int) (some (L : Int)) (stdJsonRemote rows) fuel with
        | none => .outOfFuel
        | some s => .done s := by
    rw [downloadDatasetJson_ok, gate_limit nc _ htr]
    rfl
  refine ⟨s, by rw [hred, hs], hdl, hrec, hlen, ?_, ?_⟩
  · intro f hf
    rw [hfetv] at hf
    have hb := knownFetches_bounds P L L 0 (by omega) f hf
    exact ⟨hb.1, hb.2.1, hb.2.2.1⟩
  · intro hLP
    rw [hfetv, knownFetches_cons P L 0 hP hL]
    have hm : min P (L - 0) = L := by omega
    rw [hm]
    simp

/-- C2, witness: in JSON mode, limit 3 over a 5-row dataset with page size 2:
3 rows committed in ceil(3 / 2) = 2 fetches. -/
theorem c2_limit_witness :
    ∃ s, downloadDatasetJson (.ok ()) true (some 3) 0 "" 2
        (stdJsonRemote [[("a", JScalar.num 0)], [("a", JScalar.num 1)],
          [("a", JScalar.num 2)], [("a", JScalar.num 3)], [("a", JScalar.num 4)]]) 5
        = .done s
      ∧ s.downloadedRows = 3
      ∧ s.records = ([[("a", JScalar.num 0)], [("a", JScalar.num 1)], [("a", JScalar.num 2)],
          [("a", JScalar.num 3)], [("a", JScalar.num 4)]] : List JRecord).take 3
      ∧ s.fetches.length = (3 + 2 - 1) / 2 := by
  obtain ⟨s, h1, h2, h3, h4, _, _⟩ := c2_limit_amended.1
    [[("a", JScalar.num 0)], [("a", JScalar.num 1)], [("a", JScalar.num 2)],
      [("a", JScalar.num 3)], [("a", JScalar.num 4)]]
    3 2 true 0 "" 5 (by decide) (by decide) (by decide) (by decide)
  exact ⟨s, by exact_mod_cast h1, by exact_mod_cast h2, h3, h4⟩

/-- C3, counterexample: the CSV branch has no zero-row check — a page with no
data rows splits into the header and the trailing empty segment and is counted
as one row, so at chunk limit 1 the loop treats it as a full page, keeps
going, and never terminates: the first such iteration continues rather than
halting, and 50 iterations of fuel are exhausted without the loop ending. -/
theorem c3_short_page_counterexample :
    csvStep 1 none (stdCsvRemote "h" []) initCsvSt
      = .cont ⟨1, 1, false, [⟨1, 0, 1⟩], "h\n", [ProgressEv.plain 1]⟩
    ∧ csvLoop 1 none (stdCsvRemote "h" []) 50 initCsvSt = none := by
  decide

/-- C3, amended: in JSON mode a page answered with fewer rows than requested
(zero included) terminates the loop right there — one more fetch recorded, its
rows committed, no later page requested — and a non-positive chunk limit (the
absolute limit reached) terminates it with no fetch, in both modes. In CSV
mode the short-count break compares `lines.length - 1`, which counts the
trailing empty split segment: a short line count halts likewise, and a
zero-data-row page halts only because its count of 1 is short of a chunk
limit of at least 2 — at chunk limit 1 it counts as full and the loop does
not terminate (see the counterexample). The concrete scenario holds in both
modes: with pages of 10 over 27 matching rows, page 3 is short, the
downloader stops after the fetches at offsets 0, 10 and 20 (never page 4),
committing 27 rows in JSON and writing all 27 data lines behind one header in
CSV. -/
theorem c3_short_page_stops :
    (∀ (cs : Int) (rtd : Option Int) (remote : Int → Int → List JRecord) (s : JsonSt)
        (fuel : Nat),
      ((remote (chunkLimitOf cs rtd s.downloadedRows) s.offset).length : Int)
          < chunkLimitOf cs rtd s.downloadedRows →
      ∃ s', jsonLoop cs rtd remote (fuel + 1) s = some s'
        ∧ s'.fetches.length = s.fetches.length + 1
        ∧ s'.records = s.records ++ remote (chunkLimitOf cs rtd s.downloadedRows) s.offset
        ∧ s'.downloadedRows = s.downloadedRows
            + ((remote (chunkLimitOf cs rtd s.downloadedRows) s.offset).length : Int))
    ∧ (∀ (cs : Int) (rtd : Option Int) (remote : Int → Int → List JRecord) (s : JsonSt)
        (fuel : Nat), chunkLimitOf cs rtd s.downloadedRows ≤ 0 →
        jsonLoop cs rtd remote (fuel + 1) s = some s)
    ∧ (∀ (cs : Int) (rtd : Option Int) (remote : Int → Int → List String) (s : CsvSt)
        (fuel : Nat), chunkLimitOf cs rtd s.downloadedRows ≤ 0 →
        csvLoop cs rtd remote (fuel + 1) s = some s)
    ∧ (∀ (cl : Int) (rtd : Option Int) (s : CsvSt) (lines : List String),
        1 < lines.length → (lines.length : Int) - 1 < cl →
        ∃ s', csvFetched cl rtd s lines = .halt s'
          ∧ s'.fetches.length = s.fetches.length + 1)
    ∧ (∀ (cl : Int) (rtd : Option Int) (s : CsvSt) (hdr : String), 2 ≤ cl →
        ∃ s', csvFetched cl rtd s [hdr, ""] = .halt s')
    ∧ onDone (fun s => (s.fetches.map (fun f => (f.cap, f.offset, f.returned)),
          s.downloadedRows, s.records.length))
        (downloadDatasetJson (.ok ()) true none 0 "" 10
          (stdJsonRemote ((List.range 27).map (fun i => [("i", JScalar.num (i : Int))]))) 9)
        = some ([((10 : Int), (0 : Int), (10 : Int)), (10, 10, 10), (10, 20, 7)], 27, 27)
    ∧ onDone (fun s => (s.fetches.map (fun f => (f.cap, f.offset)), s.out))
        (downloadDatasetCsv (.ok ()) true none 0 "" 10
          (stdCsvRemote "h" ((List.range 27).map (fun i => "r" ++ toString i))) 9)
        = some ([((10 : Int), (0 : Int)), (10, 10), (10, 20)],
            catMap (fun l => l ++ "\n")
              ("h" :: (List.range 27).map (fun i => "r" ++ toString i))) := by
  refine ⟨?_, ?_, ?_, ?_, ?_, by decide, by decide⟩
  · intro cs rtd remote s fuel hshort
    have hclpos : ¬ chunkLimitOf cs rtd s.downloadedRows ≤ 0 := by
      have := (remote (chunkLimitOf cs rtd s.downloadedRows) s.offset).length
      omega
    rw [jsonLoop_succ, jsonStep_eq_fetched _ _ _ _ hclpos]
    by_cases hr : remote (chunkLimitOf cs rtd s.downloadedRows) s.offset = []
    · rw [hr, jsonFetched_empty]
      refine ⟨_, rfl, ?_, ?_, ?_⟩ <;> simp [hr]
    · rw [jsonFetched_short _ _ _ _ hr hshort]
      exact ⟨_, rfl, by simp, rfl, rfl⟩
  · intro cs rtd remote s fuel hcl
    rw [jsonLoop_succ, jsonStep_halt_limit _ _ _ _ hcl]
  · intro cs rtd remote s fuel hcl
    rw [csvLoop_succ, csvStep_halt_limit _ _ _ _ hcl]
  · intro cl rtd s lines h1 h2
    rw [csvFetched_short _ _ _ _ (by omega) h2]
    exact ⟨_, rfl, by simp⟩
  · intro cl rtd s hdr hcl
    rw [csvFetched_short _ _ _ _ (by simp) (by simp; omega)]
    exact ⟨_, rfl⟩

/-- C3, witness: instantiation of the generic short-page termination at a
remote returning 1 row against a cap of 5. -/
theorem c3_short_page_witness :
    ∃ s', jsonLoop 5 none (fun _ _ => [[("a", JScalar.num 0)]]) 4 initJsonSt = some s'
      ∧ s'.fetches.length = initJsonSt.fetches.length + 1
      ∧ s'.records = initJsonSt.records ++ [[("a", JScalar.num 0)]]
      ∧ s'.downloadedRows = initJsonSt.downloadedRows + 1 := by
  have h := c3_short_page_stops.1 5 none (fun _ _ => [[("a", JScalar.num 0)]])
    initJsonSt 3 (by decide)
  exact_mod_cast h

/-- Framing of a completed JSON run at the `runJson` level: the bytes written
are exactly the claim's well-formed array shape over the committed records. -/
theorem runJson_out_framing (cs : Int) (rtd : Option Int)
    (remote : Int → Int → List JRecord) (fuel : Nat) (s : JsonSt)
    (h : runJson cs rtd remote fuel = some s) :
    s.out = specJsonArrayText (s.records.map serializeRecord) := by
  rw [runJson] at h
  cases hloop : jsonLoop cs rtd remote fuel initJsonSt with
  | none =>
    rw [hloop] at h
    cases h
  | some s1 =>
    rw [hloop] at h
    have h2 : ({ s1 with out := s1.out ++ "\n]\n" } : JsonSt) = s := Option.some.inj h
    have hinv := jsonLoop_framing cs rtd remote fuel initJsonSt s1 hloop
      (by simp [initJsonSt, sepBy, String.append_empty]) rfl
    rw [← h2]
    show s1.out ++ "\n]\n" = specJsonArrayText (s1.records.map serializeRecord)
    rw [hinv.1, specJsonArrayText, sepBy_map]

/-- C4, confirmed: every successful JSON-mode download writes exactly one
well-formed JSON array — the opening bracket line, the committed records
comma-separated with no stray leading or trailing comma, and the closing
bracket line — for any number of pages, including zero rows and one page. -/
theorem c4_json_framing (m : Except String Unit) (nc : Bool) (limit : Option Int)
    (c : Int) (ans : String) (cs : Int) (remote : Int → Int → List JRecord) (fuel : Nat)
    (s : JsonSt) (h : downloadDatasetJson m nc limit c ans cs remote fuel = .done s) :
    s.out = specJsonArrayText (s.records.map serializeRecord) := by
  cases m with
  | error e => cases h
  | ok u =>
    cases u
    rw [downloadDatasetJson_ok] at h
    by_cases hc : (gate nc limit c ans).cancelled
    · rw [if_pos hc] at h
      cases h
    · rw [if_neg hc] at h
      cases hrun : runJson cs (gate nc limit c ans).rowsToDownload remote fuel with
      | none =>
        rw [hrun] at h
        cases h
      | some s0 =>
        rw [hrun] at h
        injection h with h
        subst h
        exact runJson_out_framing _ _ _ _ _ hrun

/-- C4, witness: the zero-row single-probe download produces the well-formed
empty array with whitespace framing. -/
theorem c4_json_framing_witness :
    ∃ s, downloadDatasetJson (.ok ()) true none 0 "" 5 (stdJsonRemote []) 2 = .done s
      ∧ s.out = specJsonArrayText (s.records.map serializeRecord)
      ∧ s.out = "[\n\n]\n" := by
  have h : downloadDatasetJson (.ok ()) true none 0 "" 5 (stdJsonRemote []) 2
      = .done ⟨0, 0, true, [⟨5, 0, 0⟩], [], "[\n\n]\n", []⟩ := by decide
  exact ⟨_, h, c4_json_framing _ _ _ _ _ _ _ _ _ h, rfl⟩

/-- C5, counterexample: the same 25-row dataset, served as newline-terminated
CSV pages, downloaded with the pre-counted total of 25 (default confirmation
path) gives different bytes for page size 10 and page size 10000 — the
trailing empty split segment is counted as a data row, inflating the counter
so later chunk caps shrink and rows r23, r24 are dropped from the page-size-10
file. -/
theorem c5_csv_identity_counterexample :
    onDone (fun s => s.out)
      (downloadDatasetCsv (.ok ()) false none 25 "y" 10
        (stdCsvRemote "h" ((List.range 25).map (fun i => "r" ++ toString i))) 9)
    ≠ onDone (fun s => s.out)
      (downloadDatasetCsv (.ok ()) false none 25 "y" 10000
        (stdCsvRemote "h" ((List.range 25).map (fun i => "r" ++ toString i))) 9) := by
  decide

/-- C5, amended: when the loop is not bounded by a pre-counted total or limit
(confirmation suppressed), text-mode output over the newline-terminated wire
format is the canonical block — exactly one header line followed by every data
line — independent of the page size (for any page size at least 2), so two
such downloads of the same dataset are byte-identical; with a truthy
pre-counted total bounding the loop the counter inflation of the
counterexample can drop trailing rows. -/
theorem c5_csv_identity_amended (hdr : String) (rs : List String) (P : Nat) (c : Int)
    (ans : String) (fuel : Nat) (hP : 2 ≤ P) (hfuel : rs.length + 4 ≤ fuel) :
    ∃ s, downloadDatasetCsv (.ok ()) true none c ans (P : Int) (stdCsvRemote hdr rs) fuel
        = .done s
      ∧ s.out = catMap (fun l => l ++ "\n") (hdr :: rs) := by
  obtain ⟨s, hs, hout⟩ := runCsv_unknownTotal hdr rs P none fuel hP rfl hfuel
  have hred : downloadDatasetCsv (.ok ()) true none c ans (P : Int)
      (stdCsvRemote hdr rs) fuel
      = match runCsv (P : Int) none (stdCsvRemote hdr rs) fuel with
        | none => .outOfFuel
        | some s => .done s := by
    rw [downloadDatasetCsv_ok, gate_noConfirm]
    rfl
  exact ⟨s, by rw [hred, hs], hout⟩

/-- C5, witness: a 2-row dataset at page size 2 yields the canonical
single-header output. -/
theorem c5_csv_identity_witness :
    ∃ s, downloadDatasetCsv (.ok ()) true none 0 "" 2 (stdCsvRemote "h" ["a", "b"]) 10
        = .done s
      ∧ s.out = catMap (fun l => l ++ "\n") ("h" :: ["a", "b"]) :=
  c5_csv_identity_amended "h" ["a", "b"] 2 0 "" 10 (by decide) (by decide)

/-- C6, confirmed: with no absolute limit and confirmation not suppressed, the
row count is obtained and (in particular when it exceeds 50000) the go/no-go
prompt is put to the operator; a non-affirmative answer yields the graceful
cancellation — exit code 0, the "Download cancelled." message, the destination
file never opened, and no page fetch issued (the outcome does not depend on
the remote at all). -/
theorem c6_confirmation_gate (c : Int) (ans : String) (cs : Int) (fuel : Nat)
    (remoteJ : Int → Int → List JRecord) (remoteC : Int → Int → List String)
    (hc : 50000 < c) (hans : confirmDownload ans = false) :
    (gate false none c ans).countInvoked = true
    ∧ (gate false none c ans).promptInvoked = true
    ∧ downloadDatasetJson (.ok ()) false none c ans cs remoteJ fuel
        = .cancelled "Download cancelled."
    ∧ downloadDatasetCsv (.ok ()) false none c ans cs remoteC fuel
        = .cancelled "Download cancelled."
    ∧ mainExitCode (downloadDatasetJson (.ok ()) false none c ans cs remoteJ fuel) = 0
    ∧ fileOpened (downloadDatasetJson (.ok ()) false none c ans cs remoteJ fuel) = false
    ∧ mainExitCode (downloadDatasetCsv (.ok ()) false none c ans cs remoteC fuel) = 0
    ∧ fileOpened (downloadDatasetCsv (.ok ()) false none c ans cs remoteC fuel) = false
    ∧ (∀ remoteJ2 : Int → Int → List JRecord,
        downloadDatasetJson (.ok ()) false none c ans cs remoteJ fuel
          = downloadDatasetJson (.ok ()) false none c ans cs remoteJ2 fuel)
    ∧ ∀ remoteC2 : Int → Int → List String,
        downloadDatasetCsv (.ok ()) false none c ans cs remoteC fuel
          = downloadDatasetCsv (.ok ()) false none c ans cs remoteC2 fuel := by
  have hgate := gate_confirm_no c ans hans
  have hj : downloadDatasetJson (.ok ()) false none c ans cs remoteJ fuel
      = .cancelled "Download cancelled." := by
    rw [downloadDatasetJson_ok, hgate]
    rfl
  have hcsv : downloadDatasetCsv (.ok ()) false none c ans cs remoteC fuel
      = .cancelled "Download cancelled." := by
    rw [downloadDatasetCsv_ok, hgate]
    rfl
  refine ⟨by rw [hgate], by rw [hgate], hj, hcsv, by rw [hj]; rfl, by rw [hj]; rfl,
    by rw [hcsv]; rfl, by rw [hcsv]; rfl, ?_, ?_⟩
  · intro remoteJ2
    have hj2 : downloadDatasetJson (.ok ()) false none c ans cs remoteJ2 fuel
        = .cancelled "Download cancelled." := by
      rw [downloadDatasetJson_ok, hgate]
      rfl
    rw [hj, hj2]
  · intro remoteC2
    have hc2 : downloadDatasetCsv (.ok ()) false none c ans cs remoteC2 fuel
        = .cancelled "Download cancelled." := by
      rw [downloadDatasetCsv_ok, hgate]
      rfl
    rw [hcsv, hc2]

/-- C6, witness: a pre-counted total of 60000 and the answer "n" cancel the
download cleanly. -/
theorem c6_confirmation_gate_witness :
    downloadDatasetJson (.ok ()) false none 60000 "n" 5 (stdJsonRemote []) 3
      = .cancelled "Download cancelled." :=
  (c6_confirmation_gate 60000 "n" 5 3 (stdJsonRemote []) (stdCsvRemote "h" [])
    (by decide) (by decide)).2.2.1

/-- Gate behavior is identical for an absolute limit of exactly zero and for
no limit at all: zero is falsy, so it neither skips the count and prompt nor
becomes `rowsToDownload`. -/
theorem gate_zero_limit (nc : Bool) (c : Int) (ans : String) :
    gate nc (some 0) c ans = gate nc none c ans := by
  cases nc <;> by_cases h : confirmDownload ans <;>
    simp [gate, truthyOpt, jsOr, h]

/-- C7, counterexample: an absolute row limit of exactly zero does not stop
the downloader — with confirmation suppressed it downloads the whole
dataset (1 fetch, 1 row committed here); and a pre-count of zero still issues
one page fetch (which returns no rows) instead of none. -/
theorem c7_zero_limit_counterexample :
    onDone (fun s => (s.fetches.length, s.records.length))
      (downloadDatasetJson (.ok ()) true (some 0) 0 "" 5
        (stdJsonRemote [[("a", JScalar.num 1)]]) 3) = some (1, 1)
    ∧ onDone (fun s => s.fetches.length)
      (downloadDatasetJson (.ok ()) false none 0 "y" 5 (stdJsonRemote []) 3) = some 1
    ∧ (1 : Nat) ≠ 0 := by
  decide

/-- C7, amended: a limit of exactly zero is falsy and therefore behaves
exactly like no limit at all — the same outcome for every metadata result,
remote and fuel, in both JSON and CSV mode — rather than suppressing fetches;
and when the pre-count returns zero over an empty matching set, the loop still
issues exactly one page fetch, which returns no data rows, after which the
output file is created and correctly framed: the empty JSON array in JSON
mode, and in text mode (page size at least 2, newline-terminated wire format)
a file holding exactly the header line. -/
theorem c7_zero_limit_amended :
    (∀ (m : Except String Unit) (nc : Bool) (c : Int) (ans : String) (cs : Int)
        (remote : Int → Int → List JRecord) (fuel : Nat),
      downloadDatasetJson m nc (some 0) c ans cs remote fuel
        = downloadDatasetJson m nc none c ans cs remote fuel)
    ∧ (∀ (m : Except String Unit) (nc : Bool) (c : Int) (ans : String) (cs : Int)
        (remote : Int → Int → List String) (fuel : Nat),
      downloadDatasetCsv m nc (some 0) c ans cs remote fuel
        = downloadDatasetCsv m nc none c ans cs remote fuel)
    ∧ (∀ (P : Nat) (ans : String) (fuel : Nat), 0 < P → confirmDownload ans = true →
        2 ≤ fuel →
      ∃ s, downloadDatasetJson (.ok ()) false none 0 ans (P : Int)
          (stdJsonRemote []) fuel = .done s
        ∧ s.fetches.length = 1
        ∧ s.records = []
        ∧ s.out = "[\n\n]\n")
    ∧ (∀ (hdr : String) (P : Nat) (ans : String) (fuel : Nat), 2 ≤ P →
        confirmDownload ans = true → 1 ≤ fuel →
      ∃ s, downloadDatasetCsv (.ok ()) false none 0 ans (P : Int)
          (stdCsvRemote hdr []) fuel = .done s
        ∧ s.fetches.length = 1
        ∧ s.out = hdr ++ "\n") := by
  refine ⟨?_, ?_, ?_, ?_⟩
  · intro m nc c ans cs remote fuel
    cases m with
    | error e => rfl
    | ok u =>
      cases u
      rw [downloadDatasetJson_ok, downloadDatasetJson_ok, gate_zero_limit]
  · intro m nc c ans cs remote fuel
    cases m with
    | error e => rfl
    | ok u =>
      cases u
      rw [downloadDatasetCsv_ok, downloadDatasetCsv_ok, gate_zero_limit]
  · intro P ans fuel hP hconf hfuel
    obtain ⟨s, hs, _, hrec, hlen, _⟩ :=
      runJson_unknownTotal [] P (some 0) fuel hP rfl (by simpa using hfuel)
    have hred : downloadDatasetJson (.ok ()) false none 0 ans (P : Int)
        (stdJsonRemote []) fuel
        = match runJson (P : Int) (some 0) (stdJsonRemote []) fuel with
          | none => .outOfFuel
          | some s => .done s := by
      rw [downloadDatasetJson_ok, gate_confirm_yes _ _ hconf]
      rfl
    refine ⟨s, by rw [hred, hs], ?_, hrec, ?_⟩
    · rw [hlen]
      simp
    · have hfr := runJson_out_framing _ _ _ _ _ hs
      rw [hfr, hrec]
      rfl
  · intro hdr P ans fuel hP hconf hfuel
    cases fuel with
    | zero => omega
    | succ n =>
      have hcl : chunkLimitOf (P : Int) (some 0) initCsvSt.downloadedRows = (P : Int) :=
        chunkLimit_falsy (P : Int) (some 0) rfl initCsvSt.downloadedRows
      have hclpos : ¬ chunkLimitOf (P : Int) (some 0) initCsvSt.downloadedRows ≤ 0 := by
        rw [hcl]
        omega
      have hoff0 : initCsvSt.offset = ((0 : Nat) : Int) := rfl
      have h1 : ¬ (hdr :: ((([] : List String).drop 0).take P ++ [""])).length ≤ 1 := by
        simp
      have hshort : ((hdr :: ((([] : List String).drop 0).take P ++ [""])).length : Int) - 1
          < (P : Int) := by
        simp
        omega
      have hred : downloadDatasetCsv (.ok ()) false none 0 ans (P : Int)
          (stdCsvRemote hdr []) (n + 1)
          = match runCsv (P : Int) (some 0) (stdCsvRemote hdr []) (n + 1) with
            | none => .outOfFuel
            | some s => .done s := by
        rw [downloadDatasetCsv_ok, gate_confirm_yes _ _ hconf]
        rfl
      rw [hred, runCsv, csvLoop_succ, csvStep_eq_fetched _ _ _ _ hclpos, hcl, hoff0,
        stdCsvRemote_eq, csvFetched_short _ _ _ _ h1 hshort]
      refine ⟨_, rfl, rfl, ?_⟩
      show initCsvSt.out ++ (if initCsvSt.isFirstChunk
          then joinLines (hdr :: ((([] : List String).drop 0).take P ++ [""]))
          else joinLines ((hdr :: ((([] : List String).drop 0).take P ++ [""])).drop 1))
        = hdr ++ "\n"
      rw [List.drop_zero, List.take_nil, List.nil_append]
      show ("" : String) ++ joinLines [hdr, ""] = hdr ++ "\n"
      rw [String.empty_append]
      show hdr ++ "\n" ++ joinLines [""] = hdr ++ "\n"
      show hdr ++ "\n" ++ "" = hdr ++ "\n"
      rw [String.append_empty]

/-- C7, witness: page size 5, zero pre-count: one fetch, nothing committed,
empty-array output in JSON mode and a header-only file in text mode. -/
theorem c7_zero_limit_witness :
    (∃ s, downloadDatasetJson (.ok ()) false none 0 "y" ((5 : Nat) : Int)
        (stdJsonRemote []) 2 = .done s
      ∧ s.fetches.length = 1
      ∧ s.records = []
      ∧ s.out = "[\n\n]\n")
    ∧ (∃ s, downloadDatasetCsv (.ok ()) false none 0 "y" ((5 : Nat) : Int)
        (stdCsvRemote "h" []) 2 = .done s
      ∧ s.fetches.length = 1
      ∧ s.out = "h" ++ "\n") :=
  ⟨c7_zero_limit_amended.2.2.1 5 "y" 2 (by decide) (by decide) (by decide),
   c7_zero_limit_amended.2.2.2 "h" 5 "y" 2 (by decide) (by decide) (by decide)⟩

/-- C8, counterexample: a download ending in a short page emits no progress
line for that final committed page — here the whole 7-row dataset arrives in
one short page (7 of 10 requested), one page is committed, and zero progress
lines are emitted, not one. -/
theorem c8_progress_counterexample :
    onDone (fun s => (s.downloadedRows, s.fetches.length, s.progress.length))
      (downloadDatasetJson (.ok ()) true none 0 "" 10
        (stdJsonRemote ((List.range 7).map (fun i => [("i", JScalar.num (i : Int))]))) 5)
      = some (7, 1, 0)
    ∧ (0 : Nat) ≠ 1 := by
  decide

/-- C8, amended: in both modes a progress line is emitted after exactly those
pages whose counted row number reached the requested cap — the reply's record
count in JSON, and `lines.length - 1` in CSV, which includes the trailing
empty split segment, so a CSV page carrying one data line fewer than the cap
still counts as full and gets a progress line — and never after the
terminating short or empty page; every emitted line has the coded shape:
committed-versus-total when `rowsToDownload` is truthy, committed-alone
otherwise. -/
theorem c8_progress_amended :
    (∀ (cs : Int) (rtd : Option Int) (remote : Int → Int → List JRecord) (fuel : Nat)
        (s : JsonSt), runJson cs rtd remote fuel = some s →
      s.progress.length = (s.fetches.filter isFullPage).length
        ∧ ∀ e ∈ s.progress, ∃ dl, e = mkProgress rtd dl)
    ∧ (∀ (cs : Int) (rtd : Option Int) (remote : Int → Int → List String) (fuel : Nat)
        (s : CsvSt), runCsv cs rtd remote fuel = some s →
      s.progress.length = (s.fetches.filter isFullPage).length
        ∧ ∀ e ∈ s.progress, ∃ dl, e = mkProgress rtd dl)
    ∧ (runCsv 3 none (stdCsvRemote "h" ["a", "b"]) 5).map
        (fun s => (s.progress.length, s.fetches.map (fun f => (f.cap, f.returned))))
        = some (1, [((3 : Int), (3 : Int)), (3, 1)]) := by
  refine ⟨?_, ?_, by decide⟩
  · intro cs rtd remote fuel s h
    rw [runJson] at h
    cases hloop : jsonLoop cs rtd remote fuel initJsonSt with
    | none =>
      rw [hloop] at h
      cases h
    | some s1 =>
      rw [hloop] at h
      have h2 : ({ s1 with out := s1.out ++ "\n]\n" } : JsonSt) = s := Option.some.inj h
      rw [← h2]
      constructor
      · show s1.progress.length = (s1.fetches.filter isFullPage).length
        have hcount := jsonLoop_progress_count cs rtd remote fuel initJsonSt s1 hloop
        simpa [initJsonSt] using hcount
      · show ∀ e ∈ s1.progress, ∃ dl, e = mkProgress rtd dl
        refine jsonLoop_progress_shape cs rtd remote fuel initJsonSt s1 hloop ?_
        intro e he
        exact absurd he (by simp [initJsonSt])
  · intro cs rtd remote fuel s h
    rw [runCsv] at h
    constructor
    · have hcount := csvLoop_progress_count cs rtd remote fuel initCsvSt s h
      simpa [initCsvSt] using hcount
    · refine csvLoop_progress_shape cs rtd remote fuel initCsvSt s h ?_
      intro e he
      exact absurd he (by simp [initCsvSt])

/-- C8, witness: a short JSON page — one fetch, not full, zero progress
lines — and a CSV run whose first page counts as full (2 data lines plus the
trailing segment against cap 3) with exactly one progress line. -/
theorem c8_progress_witness :
    (∃ s, runJson 2 none (stdJsonRemote [[("a", JScalar.num 0)]]) 3 = some s
      ∧ s.progress.length = (s.fetches.filter isFullPage).length)
    ∧ (∃ s, runCsv 3 none (stdCsvRemote "h" ["a", "b"]) 5 = some s
      ∧ s.progress.length = (s.fetches.filter isFullPage).length) := by
  constructor
  · have h : runJson 2 none (stdJsonRemote [[("a", JScalar.num 0)]]) 3
        = some ⟨0, 1, false, [⟨2, 0, 1⟩], [[("a", JScalar.num 0)]],
            "[\n  \x7b\"a\":0\x7d\n]\n", []⟩ := by decide
    exact ⟨_, h,
      (c8_progress_amended.1 2 none (stdJsonRemote [[("a", JScalar.num 0)]]) 3 _ h).1⟩
  · have h : runCsv 3 none (stdCsvRemote "h" ["a", "b"]) 5
        = some ⟨3, 4, false, [⟨3, 0, 3⟩, ⟨3, 3, 1⟩], "h\na\nb\n", [ProgressEv.plain 3]⟩ := by
      decide
    exact ⟨_, h, (c8_progress_amended.2.1 3 none (stdCsvRemote "h" ["a", "b"]) 5 _ h).1⟩

/-- C9, counterexample: a malformed count field such as "abc" makes
`parseInt(... || '0')` return NaN, not the claimed default of zero. -/
theorem c9_count_parse_counterexample :
    countRowsParse (some "abc") = none ∧ (none : Option Int) ≠ some 0 := by
  decide

/-- C9, amended: the count parse defaults to zero when the count field is
absent or the empty string (the only falsy string); any other string is
handed to parseInt unchanged, so a string with no leading digits yields NaN
rather than zero. -/
theorem c9_count_parse_amended :
    countRowsParse none = some 0
    ∧ countRowsParse (some "") = some 0
    ∧ ∀ str : String, str ≠ "" → countRowsParse (some str) = parseIntJS str := by
  refine ⟨by decide, by decide, ?_⟩
  intro str h
  simp only [countRowsParse]
  rw [if_neg h]

/-- C9, witness: the non-empty malformed field "abc" goes to parseInt and
yields NaN. -/
theorem c9_count_parse_witness :
    countRowsParse (some "abc") = parseIntJS "abc" :=
  c9_count_parse_amended.2.2 "abc" (by decide)

/-- C10, confirmed: a failed or unparseable metadata fetch makes the download
routine fail before anything else happens — the outcome is the caught fatal
error for both formats, the destination file is never opened, created or
truncated, and the process exits with code 1, which is non-zero. -/
theorem c10_metadata_before_file (e : String) (nc : Bool) (limit : Option Int)
    (c : Int) (ans : String) (cs : Int) (remoteJ : Int → Int → List JRecord)
    (remoteC : Int → Int → List String) (fuel : Nat) :
    downloadDatasetJson (.error e) nc limit c ans cs remoteJ fuel = .fatal e
    ∧ downloadDatasetCsv (.error e) nc limit c ans cs remoteC fuel = .fatal e
    ∧ fileOpened (downloadDatasetJson (.error e) nc limit c ans cs remoteJ fuel) = false
    ∧ fileOpened (downloadDatasetCsv (.error e) nc limit c ans cs remoteC fuel) = false
    ∧ mainExitCode (downloadDatasetJson (.error e) nc limit c ans cs remoteJ fuel) = 1
    ∧ (1 : Int) ≠ 0 :=
  ⟨rfl, rfl, rfl, rfl, rfl, by decide⟩

end AgentTooling
